import Mathlib

/-!
# Verification of the ai-content-automator transformation core

A shallow embedding, in Lean 4, of the field-mapping, value-transformation,
rich-text compilation, row-validation and import-loop logic of the
ai-content-automator repository (`src/lib/value-transforms.ts`,
`src/lib/contentful.ts`, `src/lib/ai-validation.ts` and the type
declarations), together with theorems settling the frozen claims about it.

Modelling conventions:
* JavaScript strings are Lean `String`s; character-level operations work on
  `String.data : List Char`.
* JavaScript numbers are modelled exactly as rationals (`ℚ`) wrapped in
  `JsNum`, which also carries `NaN` and the two infinities.  IEEE-754
  double rounding is not modelled; every number appearing in the claims is
  far enough from a decision boundary that rounding cannot change any
  comparison made by the code.
* The scalar cell union `string | number | boolean | null | undefined`
  is modelled as `Option JsValue` with `JsValue ::= vstr | vbool | vnull`
  (`none` is `undefined`).  Numeric cells enter the code only through
  their string form, because JS number-to-string formatting
  (shortest-round-trip double printing) is outside the embedding.
* Thrown exceptions are `Except String`; error message texts follow the
  source templates, with JS number formatting inside a message
  approximated by `toString` on `ℚ`.
* The external Contentful environment (entry store, content types) is
  modelled as an in-memory `Store`; `createEntry` appends to it and
  `getEntries` is a point query over stored field/value pairs.
-/

/-! ## JavaScript string primitives -/

/-- JS `\s` whitespace class, restricted to its ASCII members (the unicode
space characters never appear in the claims). -/
def isJsSpace (c : Char) : Bool :=
  c = ' ' || c = '\t' || c = '\n' || c = '\r' || c = '\x0b' || c = '\x0c'

/-- Leading- and trailing-whitespace strip on a character list. -/
def jsTrimList (l : List Char) : List Char :=
  ((l.dropWhile isJsSpace).reverse.dropWhile isJsSpace).reverse

/-- JS `String.prototype.trim`. -/
def jsTrim (s : String) : String := ⟨jsTrimList s.data⟩

/-- JS `String.prototype.toLowerCase`, ASCII range (sufficient for every
string the claims mention). -/
def jsToLower (s : String) : String := ⟨s.data.map Char.toLower⟩

/-- Is `c` an ASCII lower-case letter or digit? (the character class kept by
the normalisation regex `/[^a-z0-9]/g` after lower-casing). -/
def isLowerAlnum (c : Char) : Bool :=
  ('a' ≤ c && c ≤ 'z') || ('0' ≤ c && c ≤ '9')

/-- `header.toLowerCase().replace(/[^a-z0-9]/g, "")` from
`fallbackFieldMapping`. -/
def normalizeKey (s : String) : List Char :=
  (s.data.map Char.toLower).filter isLowerAlnum

/-- Does `l` start with the segment `p`? -/
def startsWithSeq : List Char → List Char → Bool
  | _, [] => true
  | [], _ :: _ => false
  | h :: hs, p :: ps => h = p && startsWithSeq hs ps

/-- JS `String.prototype.includes`: does `hay` contain `nee` as a contiguous
segment?  (`"".includes` of the empty string is `true`, as in JS.) -/
def containsSeq : List Char → List Char → Bool
  | [], nee => nee.isEmpty
  | h :: t, nee => startsWithSeq (h :: t) nee || containsSeq t nee

/-- JS `String.prototype.startsWith` on strings. -/
def strStarts (s pre : String) : Bool := startsWithSeq s.data pre.data

/-- JS `String.prototype.split` with a one-character separator. -/
def splitOnCharAux (c : Char) : List Char → List Char → List (List Char)
  | acc, [] => [acc.reverse]
  | acc, x :: xs =>
    if x = c then acc.reverse :: splitOnCharAux c [] xs
    else splitOnCharAux c (x :: acc) xs

def splitOnChar (c : Char) (l : List Char) : List (List Char) :=
  splitOnCharAux c [] l

/-- JS `Array.prototype.join` with a one-character separator. -/
def joinByChar (c : Char) : List (List Char) → List Char
  | [] => []
  | [x] => x
  | x :: y :: t => x ++ c :: joinByChar c (y :: t)

/-! ## JavaScript numbers -/

/-- A JS number as seen by the code: `NaN`, a signed infinity, or a finite
value (modelled exactly as a rational). -/
inductive JsNum where
  | nan : JsNum
  | inf (neg : Bool) : JsNum
  | val (q : ℚ) : JsNum
deriving DecidableEq, Repr

/-- `10 ^ n` on `ℚ` by plain recursion (keeps every numeric definition
kernel-reducible, which `Monoid.npow`/`zpow` instances are not). -/
def qTenPow : Nat → ℚ
  | 0 => 1
  | n + 1 => 10 * qTenPow n

def qTenPowInt : Int → ℚ
  | Int.ofNat n => qTenPow n
  | Int.negSucc n => 1 / qTenPow (n + 1)

def digitsToNat (l : List Char) : Nat :=
  l.foldl (fun a c => a * 10 + (c.toNat - 48)) 0

/-- JS `parseFloat`: skip leading whitespace, optional sign, recognise an
`Infinity` prefix or the longest decimal-literal prefix
(`digits [. digits] [exponent]` or `. digits [exponent]`);
`NaN` when no digits are found. -/
def parseFloatJs (s : String) : JsNum :=
  let l := s.data.dropWhile isJsSpace
  let (neg, l) :=
    match l with
    | '-' :: t => (true, t)
    | '+' :: t => (false, t)
    | t => (false, t)
  if startsWithSeq l "Infinity".data then JsNum.inf neg
  else
    let ip := l.takeWhile Char.isDigit
    let l1 := l.dropWhile Char.isDigit
    let (fp, l2) :=
      match l1 with
      | '.' :: t => (t.takeWhile Char.isDigit, t.dropWhile Char.isDigit)
      | _ => ([], l1)
    if ip.isEmpty && fp.isEmpty then JsNum.nan
    else
      let e : Int :=
        match l2 with
        | 'e' :: t | 'E' :: t =>
          match t with
          | '-' :: u =>
            let d := u.takeWhile Char.isDigit
            if d.isEmpty then 0 else -(digitsToNat d : Int)
          | '+' :: u =>
            let d := u.takeWhile Char.isDigit
            if d.isEmpty then 0 else (digitsToNat d : Int)
          | u =>
            let d := u.takeWhile Char.isDigit
            if d.isEmpty then 0 else (digitsToNat d : Int)
        | _ => 0
      let mag : ℚ :=
        ((digitsToNat ip : ℚ) + (digitsToNat fp : ℚ) / qTenPow fp.length)
          * qTenPowInt e
      JsNum.val (if neg then -mag else mag)

def isHexDigit (c : Char) : Bool :=
  Char.isDigit c || ('a' ≤ c && c ≤ 'f') || ('A' ≤ c && c ≤ 'F')

def hexVal (c : Char) : Nat :=
  if Char.isDigit c then c.toNat - 48
  else if 'a' ≤ c && c ≤ 'f' then c.toNat - 87
  else c.toNat - 55

/-- Value of a digit list in base `b` when every character satisfies `ok`;
`none` when the list is empty or has a bad character. -/
def radixValue (b : Nat) (ok : Char → Bool) (v : Char → Nat) (l : List Char) :
    Option Nat :=
  if l.isEmpty || l.any (fun c => !ok c) then none
  else some (l.foldl (fun a c => a * b + v c) 0)

/-- JS `Number(string)`: trim, empty string is `0`, then the whole remaining
string must be a signed decimal literal, `Infinity`, or an unsigned
`0x`/`0o`/`0b` radix literal; otherwise `NaN`. -/
def jsStringToNumber (s : String) : JsNum :=
  let l := jsTrimList s.data
  if l.isEmpty then JsNum.val 0
  else
    match l with
    | '0' :: 'x' :: t | '0' :: 'X' :: t =>
      match radixValue 16 isHexDigit hexVal t with
      | some n => JsNum.val n
      | none => JsNum.nan
    | '0' :: 'o' :: t | '0' :: 'O' :: t =>
      match radixValue 8 (fun c => '0' ≤ c && c ≤ '7') (fun c => c.toNat - 48) t with
      | some n => JsNum.val n
      | none => JsNum.nan
    | '0' :: 'b' :: t | '0' :: 'B' :: t =>
      match radixValue 2 (fun c => c = '0' || c = '1') (fun c => c.toNat - 48) t with
      | some n => JsNum.val n
      | none => JsNum.nan
    | _ =>
      let (neg, m) :=
        match l with
        | '-' :: t => (true, t)
        | '+' :: t => (false, t)
        | t => (false, t)
      if m = "Infinity".data then JsNum.inf neg
      else
        let ip := m.takeWhile Char.isDigit
        let m1 := m.dropWhile Char.isDigit
        let (fp, m2) :=
          match m1 with
          | '.' :: t => (t.takeWhile Char.isDigit, t.dropWhile Char.isDigit)
          | _ => ([], m1)
        if ip.isEmpty && fp.isEmpty then JsNum.nan
        else
          let exp : Option Int :=
            match m2 with
            | [] => some 0
            | 'e' :: t | 'E' :: t =>
              match t with
              | '-' :: u =>
                let d := u.takeWhile Char.isDigit
                if d.isEmpty || !(u.dropWhile Char.isDigit).isEmpty then none
                else some (-(digitsToNat d : Int))
              | '+' :: u =>
                let d := u.takeWhile Char.isDigit
                if d.isEmpty || !(u.dropWhile Char.isDigit).isEmpty then none
                else some (digitsToNat d : Int)
              | u =>
                let d := u.takeWhile Char.isDigit
                if d.isEmpty || !(u.dropWhile Char.isDigit).isEmpty then none
                else some (digitsToNat d : Int)
            | _ => none
          match exp with
          | none => JsNum.nan
          | some e =>
            let mag : ℚ :=
              ((digitsToNat ip : ℚ) + (digitsToNat fp : ℚ) / qTenPow fp.length)
                * qTenPowInt e
            JsNum.val (if neg then -mag else mag)

/-- `Number.isInteger` on a JS number. -/
def jsNumIsInteger : JsNum → Bool
  | JsNum.val q => q.den = 1
  | _ => false

/-- Best-effort rendering of a JS number for interpolation into error
messages (JS shortest-round-trip formatting is approximated by the `ℚ`
printer; no claim inspects these texts). -/
def jsNumText : JsNum → String
  | JsNum.nan => "NaN"
  | JsNum.inf true => "-Infinity"
  | JsNum.inf false => "Infinity"
  | JsNum.val q => toString q

/-! ## Scalar cell values -/

/-- The dynamic scalar that can sit in a spreadsheet cell (`undefined` is
represented as `Option.none` at use sites). -/
inductive JsValue where
  | vstr (s : String)
  | vbool (b : Bool)
  | vnull
deriving DecidableEq, Repr

/-- JS `String(value)`. -/
def jsString : JsValue → String
  | .vstr s => s
  | .vbool true => "true"
  | .vbool false => "false"
  | .vnull => "null"

/-- JS `Number(value)` over the modelled scalar union. -/
def jsNumberOf : JsValue → JsNum
  | .vstr s => jsStringToNumber s
  | .vbool true => JsNum.val 1
  | .vbool false => JsNum.val 0
  | .vnull => JsNum.val 0

/-! ## Strict JSON (the model of `JSON.parse`) -/

/-- A parsed JSON value. -/
inductive JsonValue where
  | jnull
  | jbool (b : Bool)
  | jnum (q : ℚ)
  | jstr (s : String)
  | jarr (xs : List JsonValue)
  | jobj (kvs : List (String × JsonValue))

def isJsonWs (c : Char) : Bool :=
  c = ' ' || c = '\t' || c = '\n' || c = '\r'

def skipJsonWs (l : List Char) : List Char := l.dropWhile isJsonWs

/-- Parse the body of a JSON string literal (after the opening quote),
returning the decoded characters and the remainder after the closing
quote. -/
def parseJsonStr : List Char → Option (List Char × List Char)
  | [] => none
  | '"' :: rest => some ([], rest)
  | '\\' :: e :: rest =>
    match e with
    | '"' => (parseJsonStr rest).map (fun (s, r) => ('"' :: s, r))
    | '\\' => (parseJsonStr rest).map (fun (s, r) => ('\\' :: s, r))
    | '/' => (parseJsonStr rest).map (fun (s, r) => ('/' :: s, r))
    | 'b' => (parseJsonStr rest).map (fun (s, r) => ('\x08' :: s, r))
    | 'f' => (parseJsonStr rest).map (fun (s, r) => ('\x0c' :: s, r))
    | 'n' => (parseJsonStr rest).map (fun (s, r) => ('\n' :: s, r))
    | 'r' => (parseJsonStr rest).map (fun (s, r) => ('\r' :: s, r))
    | 't' => (parseJsonStr rest).map (fun (s, r) => ('\t' :: s, r))
    | 'u' =>
      match rest with
      | a :: b :: c :: d :: r2 =>
        if isHexDigit a && isHexDigit b && isHexDigit c && isHexDigit d then
          let n := ((hexVal a * 16 + hexVal b) * 16 + hexVal c) * 16 + hexVal d
          let ch := if h : n.isValidChar then Char.ofNatAux n h else ' '
          (parseJsonStr r2).map (fun (s, r) => (ch :: s, r))
        else none
      | _ => none
    | _ => none
  | c :: rest =>
    if c.toNat < 32 then none
    else (parseJsonStr rest).map (fun (s, r) => (c :: s, r))

/-- Parse a JSON number (strict JSON grammar: `-?(0|[1-9]\d*)(\.\d+)?(e...)?`)
at the head of the input. -/
def parseJsonNum (l : List Char) : Option (ℚ × List Char) :=
  let (neg, m) := match l with | '-' :: t => (true, t) | t => (false, t)
  let ip := m.takeWhile Char.isDigit
  let m1 := m.dropWhile Char.isDigit
  if ip.isEmpty then none
  else if ip.length > 1 && ip.headD ' ' = '0' then none
  else
    let (fp, m2) :=
      match m1 with
      | '.' :: t => (t.takeWhile Char.isDigit, t.dropWhile Char.isDigit)
      | _ => ([], m1)
    if (match m1 with | '.' :: _ => fp.isEmpty | _ => false) then none
    else
      let (eo, m3) :=
        match m2 with
        | 'e' :: t | 'E' :: t =>
          match t with
          | '-' :: u =>
            let d := u.takeWhile Char.isDigit
            (if d.isEmpty then none else some (-(digitsToNat d : Int)),
             u.dropWhile Char.isDigit)
          | '+' :: u =>
            let d := u.takeWhile Char.isDigit
            (if d.isEmpty then none else some ((digitsToNat d : Int)),
             u.dropWhile Char.isDigit)
          | u =>
            let d := u.takeWhile Char.isDigit
            (if d.isEmpty then none else some ((digitsToNat d : Int)),
             u.dropWhile Char.isDigit)
        | _ => (some 0, m2)
      match eo with
      | none => none
      | some e =>
        let mag : ℚ :=
          ((digitsToNat ip : ℚ) + (digitsToNat fp : ℚ) / qTenPow fp.length)
            * qTenPowInt e
        some (if neg then -mag else mag, m3)

mutual

/-- Fuel-indexed JSON value parser.  The fuel only bounds nesting depth;
`jsonParse` supplies more fuel than any input can consume, so exhaustion is
unreachable and mapped to a parse failure. -/
def parseJsonVal : Nat → List Char → Option (JsonValue × List Char)
  | 0, _ => none
  | fuel + 1, l =>
    match skipJsonWs l with
    | 'n' :: 'u' :: 'l' :: 'l' :: r => some (JsonValue.jnull, r)
    | 't' :: 'r' :: 'u' :: 'e' :: r => some (JsonValue.jbool true, r)
    | 'f' :: 'a' :: 'l' :: 's' :: 'e' :: r => some (JsonValue.jbool false, r)
    | '"' :: r =>
      (parseJsonStr r).map (fun (s, r2) => (JsonValue.jstr ⟨s⟩, r2))
    | '[' :: r =>
      (match skipJsonWs r with
       | ']' :: r2 => some (JsonValue.jarr [], r2)
       | _ => (parseJsonItems fuel r).map
           (fun (xs, r2) => (JsonValue.jarr xs, r2)))
    | '{' :: r =>
      (match skipJsonWs r with
       | '}' :: r2 => some (JsonValue.jobj [], r2)
       | _ => (parseJsonMembers fuel r).map
           (fun (kvs, r2) => (JsonValue.jobj kvs, r2)))
    | l2 => (parseJsonNum l2).map (fun (q, r) => (JsonValue.jnum q, r))

/-- Comma-separated array elements, up to and including the closing `]`. -/
def parseJsonItems : Nat → List Char → Option (List JsonValue × List Char)
  | 0, _ => none
  | fuel + 1, l => do
    let (v, r) ← parseJsonVal fuel l
    match skipJsonWs r with
    | ',' :: r2 => (parseJsonItems fuel r2).map (fun (xs, r3) => (v :: xs, r3))
    | ']' :: r2 => some ([v], r2)
    | _ => none

/-- Comma-separated object members, up to and including the closing `}`. -/
def parseJsonMembers : Nat → List Char →
    Option (List (String × JsonValue) × List Char)
  | 0, _ => none
  | fuel + 1, l =>
    match skipJsonWs l with
    | '"' :: r => do
      let (k, r2) ← parseJsonStr r
      match skipJsonWs r2 with
      | ':' :: r3 => do
        let (v, r4) ← parseJsonVal fuel r3
        match skipJsonWs r4 with
        | ',' :: r5 =>
          (parseJsonMembers fuel r5).map (fun (kvs, r6) => ((⟨k⟩, v) :: kvs, r6))
        | '}' :: r5 => some ([(⟨k⟩, v)], r5)
        | _ => none
      | _ => none
    | _ => none
end

/-- `JSON.parse`: a whole-input strict JSON document, with surrounding
whitespace allowed; `none` models a thrown `SyntaxError`. -/
def jsonParse (s : String) : Option JsonValue :=
  match parseJsonVal (s.data.length + 4) s.data with
  | some (v, r) => if (skipJsonWs r).isEmpty then some v else none
  | none => none

/-! ## Rich text (`value-transforms.ts`, `markdownToRichText`) -/

/-- A Contentful rich-text node.  Source nodes are records
`{nodeType, data, content?, value?, marks?}`; text nodes
(`nodeType: "text"`) carry `value`/`marks` and no `content`, all other
node kinds carry `content` and a `data` record (used only for the
hyperlink `uri`), so the two shapes are split into two constructors. -/
inductive RTNode where
  | text (value : String) (marks : List String)
  | elem (nodeType : String) (data : List (String × String)) (content : List RTNode)

/-- Scan for the lazy closing `**` of a bold span: the first position with
at least one content character consumed whose next two characters are
`**`.  `acc` holds the reversed content so far; `.` cannot match a
newline, so a newline aborts. -/
def findClose2 : List Char → List Char → Option (List Char × List Char)
  | _, [] => none
  | acc, c :: rest =>
    if c = '\n' then none
    else if c = '*' && rest.headD ' ' = '*' && !acc.isEmpty then
      some (acc.reverse, rest.tail)
    else findClose2 (c :: acc) rest

/-- Scan for the lazy closing `*` of an italic span. -/
def findClose1 : List Char → List Char → Option (List Char × List Char)
  | _, [] => none
  | acc, c :: rest =>
    if c = '\n' then none
    else if c = '*' && !acc.isEmpty then some (acc.reverse, rest)
    else findClose1 (c :: acc) rest

/-- Scan for the lazy closing `)` of a link url. -/
def findRParen : List Char → List Char → Option (List Char × List Char)
  | _, [] => none
  | acc, c :: rest =>
    if c = '\n' then none
    else if c = ')' && !acc.isEmpty then some (acc.reverse, rest)
    else findRParen (c :: acc) rest

/-- Scan for the `](` of a link, backtracking to a later `](` when no
closing `)` follows — the behaviour of the lazy groups in
`\[(.+?)\]\((.+?)\)`. -/
def findLinkMid : List Char → List Char → Option (List Char × List Char × List Char)
  | _, [] => none
  | acc, c :: rest =>
    if c = '\n' then none
    else if c = ']' && rest.headD ' ' = '(' && !acc.isEmpty then
      match findRParen [] rest.tail with
      | some (url, after) => some (acc.reverse, url, after)
      | none => findLinkMid (c :: acc) rest
    else findLinkMid (c :: acc) rest

lemma findClose2_rest_lt {acc l c r} (h : findClose2 acc l = some (c, r)) :
    r.length < l.length := by
  induction l generalizing acc with
  | nil => simp [findClose2] at h
  | cons x xs ih =>
    rw [findClose2] at h
    split at h
    · simp at h
    · split at h
      · simp only [Option.some.injEq, Prod.mk.injEq] at h
        obtain ⟨-, hr⟩ := h
        subst hr
        have h2 : xs.tail.length ≤ xs.length := by cases xs <;> simp
        simp only [List.length_cons]
        omega
      · exact Nat.lt_trans (ih h) (by simp only [List.length_cons]; omega)

lemma findClose1_rest_lt {acc l c r} (h : findClose1 acc l = some (c, r)) :
    r.length < l.length := by
  induction l generalizing acc with
  | nil => simp [findClose1] at h
  | cons x xs ih =>
    rw [findClose1] at h
    split at h
    · simp at h
    · split at h
      · simp only [Option.some.injEq, Prod.mk.injEq] at h
        obtain ⟨-, hr⟩ := h
        subst hr
        simp only [List.length_cons]
        omega
      · exact Nat.lt_trans (ih h) (by simp only [List.length_cons]; omega)

lemma findRParen_rest_lt {acc l c r} (h : findRParen acc l = some (c, r)) :
    r.length < l.length := by
  induction l generalizing acc with
  | nil => simp [findRParen] at h
  | cons x xs ih =>
    rw [findRParen] at h
    split at h
    · simp at h
    · split at h
      · simp only [Option.some.injEq, Prod.mk.injEq] at h
        obtain ⟨-, hr⟩ := h
        subst hr
        simp only [List.length_cons]
        omega
      · exact Nat.lt_trans (ih h) (by simp only [List.length_cons]; omega)

lemma findLinkMid_rest_lt {acc l t u r} (h : findLinkMid acc l = some (t, u, r)) :
    r.length < l.length := by
  induction l generalizing acc with
  | nil => simp [findLinkMid] at h
  | cons x xs ih =>
    rw [findLinkMid] at h
    split at h
    · simp at h
    · split at h
      · split at h
        · simp only [Option.some.injEq, Prod.mk.injEq] at h
          obtain ⟨-, -, hr⟩ := h
          subst hr
          rename_i hfind
          have h1 := findRParen_rest_lt hfind
          have h2 : xs.tail.length ≤ xs.length := by cases xs <;> simp
          simp only [List.length_cons]
          omega
        · exact Nat.lt_trans (ih h) (by simp only [List.length_cons]; omega)
      · exact Nat.lt_trans (ih h) (by simp only [List.length_cons]; omega)

/-- Try the combined alternation
`(\*\*(.+?)\*\*)|(\*(.+?)\*)|(\[(.+?)\]\((.+?)\))` at the head of `l`,
alternatives in source order, returning the node the match compiles to and
the remainder after the matched span. -/
def tryMatchAt (l : List Char) : Option (RTNode × List Char) :=
  match l with
  | '*' :: '*' :: t =>
    match findClose2 [] t with
    | some (content, rest) => some (RTNode.text ⟨content⟩ ["bold"], rest)
    | none =>
      match findClose1 [] ('*' :: t) with
      | some (content, rest) => some (RTNode.text ⟨content⟩ ["italic"], rest)
      | none => none
  | '*' :: t =>
    match findClose1 [] t with
    | some (content, rest) => some (RTNode.text ⟨content⟩ ["italic"], rest)
    | none => none
  | '[' :: t =>
    match findLinkMid [] t with
    | some (txt, url, rest) =>
      some (RTNode.elem "hyperlink" [("uri", ⟨url⟩)]
              [RTNode.text ⟨txt⟩ []], rest)
    | none => none
  | _ => none

lemma tryMatchAt_rest_lt {l n r} (h : tryMatchAt l = some (n, r)) :
    r.length < l.length := by
  unfold tryMatchAt at h
  split at h
  · rename_i t
    split at h
    · rename_i hf
      simp only [Option.some.injEq, Prod.mk.injEq] at h
      obtain ⟨-, hr⟩ := h
      subst hr
      have := findClose2_rest_lt hf
      simp only [List.length_cons]
      omega
    · split at h
      · rename_i hf
        simp only [Option.some.injEq, Prod.mk.injEq] at h
        obtain ⟨-, hr⟩ := h
        subst hr
        have := findClose1_rest_lt hf
        simp only [List.length_cons] at this ⊢
        omega
      · simp at h
  · rename_i t
    split at h
    · rename_i hf
      simp only [Option.some.injEq, Prod.mk.injEq] at h
      obtain ⟨-, hr⟩ := h
      subst hr
      have := findClose1_rest_lt hf
      simp only [List.length_cons]
      omega
    · simp at h
  · rename_i t
    split at h
    · rename_i hf
      simp only [Option.some.injEq, Prod.mk.injEq] at h
      obtain ⟨-, hr⟩ := h
      subst hr
      have := findLinkMid_rest_lt hf
      simp only [List.length_cons]
      omega
    · simp at h
  · simp at h

/-- Emit the accumulated plain characters (reversed in `acc`) as a text
node, unless empty — the `if (plain)` / trailing-remainder pushes of
`parseInlineText`. -/
def flushPlain (acc : List Char) (tailNodes : List RTNode) : List RTNode :=
  if acc.isEmpty then tailNodes else RTNode.text ⟨acc.reverse⟩ [] :: tailNodes

/-- The `regex.exec` loop of `parseInlineText`: scan left to right, at each
position trying the alternation first, else treating the character as plain
text.  The `fuel` argument only bounds the number of scan steps to keep the
recursion structural (and hence kernel-computable): every step consumes at
least one character of the remainder (`tryMatchAt_rest_lt`), so the initial
fuel `text.length` makes the exhaustion branch unreachable. -/
def inlineScan (fuel : Nat) (acc : List Char) : List Char → List RTNode
  | [] => flushPlain acc []
  | c :: rest =>
    match fuel with
    | 0 => flushPlain acc []
    | fuel + 1 =>
      match tryMatchAt (c :: rest) with
      | some (node, after) => flushPlain acc (node :: inlineScan fuel [] after)
      | none => inlineScan fuel (c :: acc) rest

/-- `parseInlineText` from `value-transforms.ts`: inline Markdown (bold,
italic, links) to rich-text text/hyperlink nodes, with the final
at-least-one-node guarantee. -/
def parseInlineText (text : String) : List RTNode :=
  let nodes := inlineScan text.data.length [] text.data
  if nodes.isEmpty then [RTNode.text text []] else nodes

/-! ### Block structure (`markdownToRichText`) -/

/-- Leading-whitespace strip (`\s*` at the start of the list regexes). -/
def dropWs (l : List Char) : List Char := l.dropWhile isJsSpace

/-- `/^---+$/.test(line.trim())`: trimmed line is three or more dashes. -/
def isHrLine (line : String) : Bool :=
  let t := jsTrimList line.data
  decide (3 ≤ t.length) && t.all (· = '-')

/-- `line.match(/^(#{1,6})\s+(.+)$/)`: heading level and remaining text.
The greedy `\s+` backtracks one character when the rest of the line is all
whitespace, so that `(.+)` can still take one character. -/
def headingOf (line : String) : Option (Nat × String) :=
  let l := line.data
  let n := (l.takeWhile (· = '#')).length
  let rest := l.dropWhile (· = '#')
  if 1 ≤ n && n ≤ 6 then
    let w := (rest.takeWhile isJsSpace).length
    if 1 ≤ w && 2 ≤ rest.length then
      some (n, ⟨rest.drop (if w = rest.length then rest.length - 1 else w)⟩)
    else none
  else none

/-- `line.startsWith("> ")`. -/
def isBqLine (line : String) : Bool :=
  match line.data with
  | '>' :: ' ' :: _ => true
  | _ => false

/-- `/^\s*[-*]\s+/.test(line)`. -/
def isUlLine (line : String) : Bool :=
  match dropWs line.data with
  | c :: rest => (c = '-' || c = '*') && isJsSpace (rest.headD 'x')
  | [] => false

/-- `line.replace(/^\s*[-*]\s+/, "")`. -/
def ulItemText (line : String) : String :=
  match dropWs line.data with
  | _ :: rest => ⟨dropWs rest⟩
  | [] => line

/-- `/^\s*\d+\.\s+/.test(line)`. -/
def isOlLine (line : String) : Bool :=
  let l := dropWs line.data
  let d := l.takeWhile Char.isDigit
  let r := l.dropWhile Char.isDigit
  !d.isEmpty &&
    (match r with
     | '.' :: r2 => isJsSpace (r2.headD 'x')
     | _ => false)

/-- `line.replace(/^\s*\d+\.\s+/, "")`. -/
def olItemText (line : String) : String :=
  match (dropWs line.data).dropWhile Char.isDigit with
  | '.' :: r2 => ⟨dropWs r2⟩
  | _ => line

lemma dropWhile_len_le {α : Type} (p : α → Bool) (l : List α) :
    (l.dropWhile p).length ≤ l.length := by
  induction l with
  | nil => simp
  | cons x xs ih =>
    rw [List.dropWhile]
    split
    · simp only [List.length_cons]; omega
    · simp

/-- One list line as a `list-item` node containing a single paragraph. -/
def listItemNode (itemText : String) : RTNode :=
  RTNode.elem "list-item" []
    [RTNode.elem "paragraph" [] (parseInlineText itemText)]

/-- The line loop of `markdownToRichText`, producing the document's block
content.  Consecutive list lines are grouped by the inner `while` loops,
modelled with `takeWhile`/`dropWhile` on the remaining lines.  The `fuel`
argument only bounds the number of loop steps to keep the recursion
structural: every step consumes at least one line (`dropWhile_len_le`), so
the initial fuel `lines.length` makes the exhaustion branch unreachable. -/
def mdBlocks (fuel : Nat) : List String → List RTNode
  | [] => []
  | line :: rest =>
    match fuel with
    | 0 => []
    | fuel + 1 =>
      if jsTrim line = "" then mdBlocks fuel rest
      else if isHrLine line then RTNode.elem "hr" [] [] :: mdBlocks fuel rest
      else
        match headingOf line with
        | some (n, txt) =>
          RTNode.elem ("heading-" ++ toString n) [] (parseInlineText txt) ::
            mdBlocks fuel rest
        | none =>
          if isBqLine line then
            RTNode.elem "blockquote" []
              [RTNode.elem "paragraph" [] (parseInlineText ⟨line.data.drop 2⟩)] ::
              mdBlocks fuel rest
          else if isUlLine line then
            RTNode.elem "unordered-list" []
              ((line :: rest.takeWhile isUlLine).map (fun l => listItemNode (ulItemText l))) ::
              mdBlocks fuel (rest.dropWhile isUlLine)
          else if isOlLine line then
            RTNode.elem "ordered-list" []
              ((line :: rest.takeWhile isOlLine).map (fun l => listItemNode (olItemText l))) ::
              mdBlocks fuel (rest.dropWhile isOlLine)
          else
            RTNode.elem "paragraph" [] (parseInlineText line) :: mdBlocks fuel rest

/-- `markdownToRichText` from `value-transforms.ts`. -/
def markdownToRichText (markdown : String) : RTNode :=
  let lines := (splitOnChar '\n' markdown.data).map (⟨·⟩)
  let content := mdBlocks lines.length lines
  RTNode.elem "document" []
    (if content.isEmpty then
       [RTNode.elem "paragraph" [] [RTNode.text "" []]]
     else content)

/-! ## Value transformers (`value-transforms.ts`) -/

/-- A Contentful Link object `{sys: {type: "Link", linkType, id}}` (the
constant `sys.type` is left implicit). -/
structure LinkValue where
  linkType : String
  id : String
deriving DecidableEq, Repr

def toEntryLink (value : String) : LinkValue :=
  { linkType := "Entry", id := jsTrim value }

def toAssetLink (value : String) : LinkValue :=
  { linkType := "Asset", id := jsTrim value }

/-- Split a string-valued cell on `","`, trim each piece and drop the empty
pieces (the `split/map(trim)/filter(Boolean)` pipeline). -/
def splitTrimFilter (value : String) : List String :=
  (((splitOnChar ',' value.data).map jsTrimList).filter (!·.isEmpty)).map (⟨·⟩)

def toEntryLinks (value : String) : List LinkValue :=
  (splitTrimFilter value).map toEntryLink

def toAssetLinks (value : String) : List LinkValue :=
  (splitTrimFilter value).map toAssetLink

/-- `toJsonObject`: `JSON.parse` the trimmed cell, demand a non-null,
non-array object; both the inner shape error and a parse error are
re-thrown wrapped in the outer message template. -/
def toJsonObject (value : String) : Except String (List (String × JsonValue)) :=
  match jsonParse (jsTrim value) with
  | some (JsonValue.jobj kvs) => Except.ok kvs
  | some _ =>
    Except.error
      ("Invalid JSON in cell: Value must be a JSON object (not an array or primitive). " ++
       "Expected a valid JSON object like \x7b\"key\": \"value\"\x7d")
  | none =>
    Except.error
      ("Invalid JSON in cell: Parse error. " ++
       "Expected a valid JSON object like \x7b\"key\": \"value\"\x7d")

structure LocationValue where
  lat : ℚ
  lon : ℚ
deriving DecidableEq, Repr

/-- Is the JS comparison `n < lo || n > hi` true?  (`NaN` compares false
with everything; an infinity is out of every finite range.) -/
def jsNumOutside (n : JsNum) (lo hi : ℚ) : Bool :=
  match n with
  | JsNum.nan => false
  | JsNum.inf _ => true
  | JsNum.val q => q < lo || hi < q

/-- The finite value of a JS number (callers only use this after ruling
`NaN` and the infinities out). -/
def jsNumFinite : JsNum → ℚ
  | JsNum.val q => q
  | _ => 0

/-- `toLocation` from `value-transforms.ts`: parse `"lat,lon"` with strict
range checks. -/
def toLocation (value : String) : Except String LocationValue :=
  let parts := (splitOnChar ',' value.data).map jsTrimList
  match parts with
  | [p0, p1] =>
    let lat := parseFloatJs ⟨p0⟩
    let lon := parseFloatJs ⟨p1⟩
    if lat = JsNum.nan || lon = JsNum.nan then
      Except.error
        ("Invalid location coordinates: \"" ++ value ++
         "\". Both lat and lon must be numbers.")
    else if jsNumOutside lat (-90) 90 then
      Except.error
        ("Latitude " ++ jsNumText lat ++
         " is out of range. Must be between -90 and 90.")
    else if jsNumOutside lon (-180) 180 then
      Except.error
        ("Longitude " ++ jsNumText lon ++
         " is out of range. Must be between -180 and 180.")
    else Except.ok { lat := jsNumFinite lat, lon := jsNumFinite lon }
  | _ =>
    Except.error
      ("Invalid location format: \"" ++ value ++
       "\". Expected \"lat,lon\" (e.g. \"40.7128,-74.0060\")")

/-- `toBoolean` from `value-transforms.ts`. -/
def toBoolean (value : JsValue) : Except String Bool :=
  match value with
  | JsValue.vbool b => Except.ok b
  | _ =>
    let str := jsTrim (jsToLower (jsString value))
    if ["true", "yes", "1", "y"].contains str then Except.ok true
    else if ["false", "no", "0", "n"].contains str then Except.ok false
    else Except.error ("Cannot convert \"" ++ jsString value ++ "\" to boolean")

/-- `toNumber` from `value-transforms.ts` (`Number(value)` with a `NaN`
check; infinities pass the check as in JS). -/
def toNumber (value : JsValue) : Except String JsNum :=
  let num := jsNumberOf value
  if num = JsNum.nan then
    Except.error ("Cannot convert \"" ++ jsString value ++ "\" to a number")
  else Except.ok num

/-- `toInteger` from `value-transforms.ts`. -/
def toInteger (value : JsValue) : Except String JsNum := do
  let num ← toNumber value
  if jsNumIsInteger num then pure num
  else Except.error ("\"" ++ jsString value ++ "\" is not a whole number")

structure LookupRequest where
  field : String
  value : String
deriving DecidableEq, Repr

/-- `isLookup`: is the trimmed cell a `lookup:` expression? -/
def isLookup (value : String) : Bool :=
  strStarts (jsTrim value) "lookup:"

/-- `parseLookup`: split the trimmed cell on `":"`; fewer than three
segments is an error; the value keeps any further colons verbatim
(`parts.slice(2).join(":")`). -/
def parseLookup (value : String) : Except String LookupRequest :=
  match splitOnChar ':' (jsTrim value).data with
  | _ :: f :: v0 :: vs =>
    Except.ok { field := ⟨f⟩, value := ⟨joinByChar ':' (v0 :: vs)⟩ }
  | _ =>
    Except.error
      ("Invalid lookup format: \"" ++ value ++
       "\". Expected \"lookup:<fieldId>:<value>\"")

/-- `isUrl`: `/^https?:\/\//i.test(value.trim())`. -/
def isUrl (value : String) : Bool :=
  strStarts (jsToLower (jsTrim value)) "http://" ||
    strStarts (jsToLower (jsTrim value)) "https://"

/-! ## Field mapping and validation (`ai-validation.ts`) -/

/-- A Contentful field definition as used by the mapper/validator/importer
(`items` is flattened into `itemsType`/`itemsLinkType`; `validations` is
unused by the embedded logic). -/
structure ContentfulField where
  id : String
  name : String
  type : String
  required : Bool
  localized : Bool
  linkType : Option String
  itemsType : Option String
  itemsLinkType : Option String
deriving DecidableEq, Repr

structure ContentfulContentType where
  id : String
  name : String
  fields : List ContentfulField
deriving DecidableEq, Repr

structure FieldMapping where
  sourceField : String
  targetField : String
  confidence : ℚ
deriving DecidableEq, Repr

/-- The body of `fallbackFieldMapping`'s inner `for (const field of
targetFields)` loop for one field: an exact normalized match records
confidence 0.8, else substring containment in either direction (against
the id or the name) records 0.5, else nothing. -/
def fieldMatchFor (normalizedHeader : List Char) (header : String)
    (field : ContentfulField) : Option FieldMapping :=
  let normalizedId := normalizeKey field.id
  let normalizedName := normalizeKey field.name
  if normalizedHeader = normalizedId || normalizedHeader = normalizedName then
    some { sourceField := header, targetField := field.id, confidence := 0.8 }
  else if containsSeq normalizedHeader normalizedId ||
          containsSeq normalizedId normalizedHeader ||
          containsSeq normalizedHeader normalizedName ||
          containsSeq normalizedName normalizedHeader then
    some { sourceField := header, targetField := field.id, confidence := 0.5 }
  else none

/-- First field (in declaration order) that matches the header; the `break`
after either kind of match. -/
def firstFieldMatch (header : String) (targetFields : List ContentfulField) :
    Option FieldMapping :=
  targetFields.findSome? (fieldMatchFor (normalizeKey header) header)

/-- `fallbackFieldMapping` from `ai-validation.ts`: one mapping per header
that matches some field, in header order; unmatched headers are skipped. -/
def fallbackFieldMapping (sourceHeaders : List String)
    (targetFields : List ContentfulField) : List FieldMapping :=
  sourceHeaders.filterMap (fun header => firstFieldMatch header targetFields)

/-! ### Per-cell validation (`validateFieldValue`) -/

structure ValidationError where
  row : Nat
  field : String
  message : String
  value : Option JsValue
deriving DecidableEq, Repr

structure ValidationWarning where
  field : String
  message : String
deriving DecidableEq, Repr

/-- The `value === null || value === undefined || value === ""` test. -/
def jsEmptyCell : Option JsValue → Bool
  | none => true
  | some JsValue.vnull => true
  | some (JsValue.vstr s) => s == ""
  | some _ => false

/-- The token list of the Boolean branch of `validateFieldValue`.  Note:
the branch lower-cases the string form of the cell but does NOT trim it. -/
def previewBoolTokens : List String :=
  ["true", "false", "yes", "no", "1", "0", "y", "n"]

/-- `validateFieldValue` from `ai-validation.ts`: per-cell preview
validation against the target field's declared type. -/
def validateFieldValue (value : Option JsValue) (field : ContentfulField)
    (rowNumber : Nat) (sourceField : String) : List ValidationError :=
  if field.required && jsEmptyCell value then
    [{ row := rowNumber, field := sourceField,
       message := "Required field \"" ++ field.name ++ "\" is empty",
       value := value }]
  else if jsEmptyCell value then []
  else
    match value with
    | none => []
    | some v =>
      let strValue := jsTrim (jsString v)
      match field.type with
      | "Integer" =>
        if !jsNumIsInteger (jsNumberOf v) then
          [{ row := rowNumber, field := sourceField,
             message := "\"" ++ field.name ++ "\" should be a whole number",
             value := value }]
        else []
      | "Number" =>
        if jsNumberOf v = JsNum.nan then
          [{ row := rowNumber, field := sourceField,
             message := "\"" ++ field.name ++ "\" should be a number",
             value := value }]
        else []
      | "Boolean" =>
        let boolStr := jsToLower (jsString v)
        if !previewBoolTokens.contains boolStr then
          [{ row := rowNumber, field := sourceField,
             message := "\"" ++ field.name ++
               "\" should be a boolean value (true/false, yes/no, 1/0)",
             value := value }]
        else []
      | "Link" =>
        if strValue == "" then
          [{ row := rowNumber, field := sourceField,
             message := "\"" ++ field.name ++
               "\" requires an entry/asset ID or lookup reference (e.g. \"lookup:slug:my-article\")",
             value := value }]
        else []
      | "Array" =>
        if strValue == "" then
          [{ row := rowNumber, field := sourceField,
             message := "\"" ++ field.name ++
               "\" should be a comma-separated list of values",
             value := value }]
        else []
      | "RichText" => []
      | "Object" =>
        match jsonParse strValue with
        | some (JsonValue.jobj _) => []
        | some _ =>
          [{ row := rowNumber, field := sourceField,
             message := "\"" ++ field.name ++
               "\" should be a JSON object (e.g. \x7b\"key\": \"value\"\x7d)",
             value := value }]
        | none =>
          [{ row := rowNumber, field := sourceField,
             message := "\"" ++ field.name ++ "\" contains invalid JSON",
             value := value }]
      | "Location" =>
        let parts := splitOnChar ',' strValue.data
        let bad :=
          match parts with
          | [p0, p1] =>
            parseFloatJs ⟨p0⟩ = JsNum.nan || parseFloatJs ⟨p1⟩ = JsNum.nan
          | _ => true
        if bad then
          [{ row := rowNumber, field := sourceField,
             message := "\"" ++ field.name ++
               "\" should be in \"lat,lon\" format (e.g. \"40.7128,-74.0060\")",
             value := value }]
        else []
      | _ => []

/-! ### Row validation (`validateContent`) -/

/-- A spreadsheet row: column name to scalar cell (column names are unique
within a row, so first-match lookup is the JS property read). -/
abbrev ContentRow : Type := List (String × JsValue)

def rowGet (row : ContentRow) (key : String) : Option JsValue :=
  ((List.find? (fun p => p.1 == key)) row).map (fun p => p.2)

structure ParsedFileResult where
  headers : List String
  rows : List ContentRow
  fileName : String
  totalRows : Nat
  errors : List String

structure ValidationResult where
  isValid : Bool
  errors : List ValidationError
  warnings : List ValidationWarning
  suggestions : List String
  mappedFields : List FieldMapping

/-- The truncation suggestion emitted when more than 100 rows exist. -/
def truncationMsg (n : Nat) : String :=
  "Only the first 100 of " ++ toString n ++
    " rows were validated. All rows will be imported."

/-- The low-confidence suggestion. -/
def lowConfidenceMsg : String :=
  "Some field mappings have low confidence. Please review and adjust the mappings before importing."

/-- `validateContent` from `ai-validation.ts`.  The AI call
(`suggestFieldMappings`) is external I/O; its result (or the fallback's)
enters here as the `mappedFields` argument, exactly as the method body
consumes it. -/
def validateContent (parsedFile : ParsedFileResult)
    (contentType : ContentfulContentType) (mappedFields : List FieldMapping) :
    ValidationResult :=
  let warnings :=
    (contentType.fields.filter (·.required)).filterMap (fun field =>
      match mappedFields.find? (fun m => m.targetField == field.id) with
      | some m =>
        if m.confidence < 0.5 then
          some { field := field.id,
                 message := "Required field \"" ++ field.name ++
                   "\" may not have a matching column in your file" }
        else none
      | none =>
        some { field := field.id,
               message := "Required field \"" ++ field.name ++
                 "\" may not have a matching column in your file" })
  let errors :=
    ((parsedFile.rows.take 100).enum).flatMap (fun p =>
      mappedFields.flatMap (fun mapping =>
        let value := rowGet p.2 mapping.sourceField
        match contentType.fields.find? (fun f => f.id == mapping.targetField) with
        | some targetField =>
          validateFieldValue value targetField (p.1 + 2) mapping.sourceField
        | none => []))
  let suggestions :=
    (if mappedFields.any (fun m => m.confidence < 0.7) then
       [lowConfidenceMsg]
     else []) ++
    (if 100 < parsedFile.rows.length then
       [truncationMsg parsedFile.rows.length]
     else [])
  { isValid := errors.isEmpty, errors := errors, warnings := warnings,
    suggestions := suggestions, mappedFields := mappedFields }

/-! ## Import (`contentful.ts`) -/

/-- The value a transformed cell carries into the Contentful fields object
(`vraw` is the untouched scalar used for default values and for an unknown
field definition). -/
inductive TValue where
  | vstr (s : String)
  | vstrs (xs : List String)
  | vnum (n : JsNum)
  | vbool (b : Bool)
  | vlink (l : LinkValue)
  | vlinks (ls : List LinkValue)
  | vrich (n : RTNode)
  | vjson (kvs : List (String × JsonValue))
  | vloc (lat lon : ℚ)
  | vlookup (field value linkType : String)
  | vraw (v : JsValue)

/-- `transformValue` from `contentful.ts`: dispatch on the target field's
declared type.  The `mapping` argument is accepted (as in the source) but
unused by the body. -/
def transformValue (value : JsValue) (mapping : FieldMapping)
    (fieldDef : Option ContentfulField) : Except String TValue :=
  let strValue :=
    match value with
    | JsValue.vstr s => jsTrim s
    | v => jsString v
  match fieldDef with
  | none =>
    Except.ok
      (match value with
       | JsValue.vstr s => TValue.vstr (jsTrim s)
       | v => TValue.vraw v)
  | some fd =>
    match fd.type with
    | "Symbol" => Except.ok (TValue.vstr strValue)
    | "Text" => Except.ok (TValue.vstr strValue)
    | "Integer" => (toInteger value).map TValue.vnum
    | "Number" => (toNumber value).map TValue.vnum
    | "Boolean" => (toBoolean value).map TValue.vbool
    | "Date" => Except.ok (TValue.vstr strValue)
    | "Link" =>
      if fd.linkType == some "Asset" then
        Except.ok (TValue.vlink (toAssetLink strValue))
      else if isLookup strValue then
        (parseLookup strValue).map (fun lr =>
          TValue.vlookup lr.field lr.value "Entry")
      else Except.ok (TValue.vlink (toEntryLink strValue))
    | "Array" =>
      if fd.itemsType == some "Link" && fd.itemsLinkType == some "Asset" then
        Except.ok (TValue.vlinks (toAssetLinks strValue))
      else if fd.itemsType == some "Link" then
        Except.ok (TValue.vlinks (toEntryLinks strValue))
      else Except.ok (TValue.vstrs (splitTrimFilter strValue))
    | "RichText" => Except.ok (TValue.vrich (markdownToRichText strValue))
    | "Object" => (toJsonObject strValue).map TValue.vjson
    | "Location" => (toLocation strValue).map (fun lv => TValue.vloc lv.lat lv.lon)
    | _ =>
      Except.ok
        (match value with
         | JsValue.vstr s => TValue.vstr (jsTrim s)
         | v => TValue.vraw v)

/-- A Contentful `fields` object: field id to locale to value (insertion
order preserved, as for a JS object). -/
abbrev Fields : Type := List (String × List (String × TValue))

/-- JS object property assignment `fields[k] = v`: overwrite in place or
append. -/
def setField (fields : Fields) (k : String) (v : List (String × TValue)) :
    Fields :=
  if fields.any (fun p => p.1 == k) then
    fields.map (fun p => if p.1 == k then (k, v) else p)
  else fields ++ [(k, v)]

structure ImportConfigM where
  contentTypeId : String
  locale : String
  publishImmediately : Bool
  fieldMappings : List FieldMapping
  defaultValues : List (String × JsValue)

/-- `mapRowToFields` from `contentful.ts`: transform each mapped cell that
is neither `null` nor `undefined`, then fill unset default values raw. -/
def mapRowToFields (row : ContentRow) (config : ImportConfigM)
    (contentTypeFields : Option (List ContentfulField)) :
    Except String Fields := do
  let locale := if config.locale == "" then "en-US" else config.locale
  let fields ← config.fieldMappings.foldlM
    (fun (fields : Fields) mapping => do
      match rowGet row mapping.sourceField with
      | none => pure fields
      | some JsValue.vnull => pure fields
      | some v =>
        let fieldDef := contentTypeFields.bind
          (fun fs => fs.find? (fun f => f.id == mapping.targetField))
        let tv ← transformValue v mapping fieldDef
        pure (setField fields mapping.targetField [(locale, tv)]))
    []
  pure (config.defaultValues.foldl
    (fun (fs : Fields) kv =>
      if fs.any (fun p => p.1 == kv.1) then fs
      else fs ++ [(kv.1, [(locale, TValue.vraw kv.2)])])
    fields)

/-- Modelled external Contentful environment: the persisted entries (with
their queryable string-valued fields) and the declared content types. -/
structure StoreEntry where
  id : String
  fields : List (String × String)
deriving DecidableEq, Repr

structure Store where
  entries : List StoreEntry
  contentTypes : List (String × List ContentfulField)

/-- `environment.getContentType` inside `importContent`, wrapped in its
`try/catch`: field definitions when the content type exists, else `none`. -/
def lookupContentTypeFields (store : Store) (id : String) :
    Option (List ContentfulField) :=
  (store.contentTypes.find? (fun p => p.1 == id)).map (fun p => p.2)

/-- `resolveLookupsInFields` from `contentful.ts`: replace every
`__lookup` marker by a link to the first stored entry whose field equals
the looked-up value; throw when no entry matches. -/
def resolveLookupsInFields (fields : Fields) (store : Store) :
    Except String Fields :=
  fields.mapM (fun fl => do
    let resolved ← fl.2.mapM (fun lv => do
      match lv.2 with
      | TValue.vlookup f v _ =>
        match store.entries.find? (fun e => e.fields.contains (f, v)) with
        | some e => pure (lv.1, TValue.vlink (toEntryLink e.id))
        | none =>
          Except.error
            ("Lookup failed: no entry found where " ++ f ++ " = \"" ++ v ++ "\"")
      | _ => pure lv)
    pure (fl.1, resolved))

/-- Modelled `environment.createEntry`: persist the record, making its
string-valued localized fields queryable, and hand back a fresh id. -/
def createEntry (store : Store) (fields : Fields) : Store × String :=
  let id := "entry" ++ toString store.entries.length
  let queryable := fields.filterMap (fun fl =>
    match fl.2 with
    | (_, TValue.vstr s) :: _ => some (fl.1, s)
    | _ => none)
  ({ store with entries := store.entries ++ [{ id := id, fields := queryable }] },
   id)

/-- The body of `importContent`'s per-row `try` block: map, resolve,
create.  (Publishing is a remote status change with no further
observable effect in the model.) -/
def processRow (config : ImportConfigM)
    (contentTypeFields : Option (List ContentfulField)) (store : Store)
    (row : ContentRow) : Except String (Store × String) := do
  let fields ← mapRowToFields row config contentTypeFields
  let resolved ← resolveLookupsInFields fields store
  pure (createEntry store resolved)

structure ImportError where
  row : Nat
  message : String
deriving DecidableEq, Repr

structure ImportedEntry where
  row : Nat
  entryId : String
  contentType : String
  action : String
  status : String
deriving DecidableEq, Repr

structure ImportResult where
  success : Bool
  totalProcessed : Nat
  created : Nat
  updated : Nat
  failed : Nat
  errors : List ImportError
  entries : List ImportedEntry

/-- The `for (let i = 0; ...)` row loop of `importContent` with its per-row
`try/catch`: each row either appends one created entry or one error, and
processing always continues; `i` is the 0-based row index (`rowNumber =
i + 2`). -/
def importAux (config : ImportConfigM)
    (contentTypeFields : Option (List ContentfulField)) :
    Store → Nat → List ContentRow →
      List ImportError × List ImportedEntry × Store
  | store, _, [] => ([], [], store)
  | store, i, row :: rest =>
    match processRow config contentTypeFields store row with
    | Except.ok (store2, entryId) =>
      let (errs, ents, st) := importAux config contentTypeFields store2 (i + 1) rest
      (errs,
       { row := i + 2, entryId := entryId, contentType := config.contentTypeId,
         action := "created",
         status := if config.publishImmediately then "published" else "draft" } :: ents,
       st)
    | Except.error m =>
      let (errs, ents, st) := importAux config contentTypeFields store (i + 1) rest
      ({ row := i + 2, message := m } :: errs, ents, st)

/-- The store state after a prefix of rows has been processed (the store
component of `importAux`, exposed for stating per-row properties). -/
def runRowsStore (config : ImportConfigM)
    (contentTypeFields : Option (List ContentfulField)) :
    Store → List ContentRow → Store
  | store, [] => store
  | store, row :: rest =>
    match processRow config contentTypeFields store row with
    | Except.ok (store2, _) => runRowsStore config contentTypeFields store2 rest
    | Except.error _ => runRowsStore config contentTypeFields store rest

/-- `importContent` from `contentful.ts` (the surrounding space/environment
connection handshake is external I/O and outside the model). -/
def importContent (rows : List ContentRow) (config : ImportConfigM)
    (store : Store) : ImportResult :=
  let contentTypeFields := lookupContentTypeFields store config.contentTypeId
  let (errs, ents, _) := importAux config contentTypeFields store 0 rows
  { success := errs.isEmpty, totalProcessed := rows.length,
    created := ents.length, updated := 0, failed := errs.length,
    errors := errs, entries := ents }

/-! ## Helper lemmas -/

lemma dropWhile_eq_cons_head_false {α : Type} {p : α → Bool} {l : List α}
    {a : α} {rest : List α} (h : l.dropWhile p = a :: rest) : p a = false := by
  induction l with
  | nil => simp at h
  | cons x xs ih =>
    rw [List.dropWhile] at h
    split at h
    · exact ih h
    · rename_i hx
      obtain ⟨rfl, -⟩ := List.cons.injEq .. ▸ h
      simpa using hx

lemma dropWhile_idem {α : Type} (p : α → Bool) (l : List α) :
    (l.dropWhile p).dropWhile p = l.dropWhile p := by
  cases h : l.dropWhile p with
  | nil => simp
  | cons x xs =>
    have hx : p x = false := dropWhile_eq_cons_head_false h
    rw [List.dropWhile_cons_of_neg (by simp [hx])]

lemma jsTrimList_idem (l : List Char) : jsTrimList (jsTrimList l) = jsTrimList l := by
  unfold jsTrimList
  have h1 : ((((l.dropWhile isJsSpace).reverse.dropWhile isJsSpace).reverse).dropWhile isJsSpace)
      = ((l.dropWhile isJsSpace).reverse.dropWhile isJsSpace).reverse := by
    cases hr : ((l.dropWhile isJsSpace).reverse.dropWhile isJsSpace).reverse with
    | nil => simp
    | cons y ys =>
      have hpre : ((l.dropWhile isJsSpace).reverse.dropWhile isJsSpace).reverse
          <+: l.dropWhile isJsSpace := by
        have hsuf := List.dropWhile_suffix (l := (l.dropWhile isJsSpace).reverse) isJsSpace
        have := (@List.reverse_prefix Char
          ((l.dropWhile isJsSpace).reverse.dropWhile isJsSpace)
          ((l.dropWhile isJsSpace).reverse)).mpr hsuf
        simpa using this
      obtain ⟨t, ht⟩ := hpre
      rw [hr] at ht
      have hy : isJsSpace y = false :=
        @dropWhile_eq_cons_head_false Char isJsSpace l y (ys ++ t)
          (by simpa using ht.symm)
      exact List.dropWhile_cons_of_neg (by simp [hy])
  rw [h1, List.reverse_reverse, dropWhile_idem]

lemma jsTrim_idem (s : String) : jsTrim (jsTrim s) = jsTrim s := by
  unfold jsTrim
  exact congrArg String.mk (jsTrimList_idem s.data)

lemma startsWithSeq_append (p r : List Char) : startsWithSeq (p ++ r) p = true := by
  induction p with
  | nil =>
    simp only [List.nil_append]
    cases r <;> rfl
  | cons x xs ih => simpa [startsWithSeq] using ih

lemma splitOnCharAux_ne_nil (c : Char) (acc l : List Char) :
    splitOnCharAux c acc l ≠ [] := by
  induction l generalizing acc with
  | nil => simp [splitOnCharAux]
  | cons x xs ih =>
    rw [splitOnCharAux]
    split
    · simp
    · exact ih _

lemma splitOnCharAux_append (c : Char) (a b : List Char) (acc : List Char)
    (ha : ∀ x ∈ a, x ≠ c) :
    splitOnCharAux c acc (a ++ c :: b) =
      (acc.reverse ++ a) :: splitOnCharAux c [] b := by
  induction a generalizing acc with
  | nil => simp [splitOnCharAux]
  | cons x xs ih =>
    have hx : x ≠ c := ha x (by simp)
    rw [List.cons_append, splitOnCharAux, if_neg hx,
        ih _ (fun y hy => ha y (by simp [hy]))]
    simp

lemma splitOnChar_append (c : Char) (a b : List Char) (ha : ∀ x ∈ a, x ≠ c) :
    splitOnChar c (a ++ c :: b) = a :: splitOnChar c b := by
  unfold splitOnChar
  rw [splitOnCharAux_append c a b [] ha]
  simp

lemma joinByChar_splitOnCharAux (c : Char) (l acc : List Char) :
    joinByChar c (splitOnCharAux c acc l) = acc.reverse ++ l := by
  induction l generalizing acc with
  | nil => simp [splitOnCharAux, joinByChar]
  | cons x xs ih =>
    rw [splitOnCharAux]
    split
    · rename_i hx
      subst hx
      obtain ⟨h, t, hht⟩ :
          ∃ h t, splitOnCharAux x [] xs = h :: t := by
        cases hs : splitOnCharAux x [] xs with
        | nil => exact absurd hs (splitOnCharAux_ne_nil x [] xs)
        | cons h t => exact ⟨h, t, rfl⟩
      rw [hht, joinByChar, ← hht, ih]
      simp
    · rw [ih]
      simp

lemma joinByChar_splitOnChar (c : Char) (l : List Char) :
    joinByChar c (splitOnChar c l) = l := by
  simpa using joinByChar_splitOnCharAux c l []

lemma findSome?_of_prefix_none {α β : Type} (f : α → Option β) (l : List α)
    (i : Nat) (hi : i < l.length) (b : β)
    (hbefore : ∀ j (hj : j < i), f (l.get ⟨j, Nat.lt_trans hj hi⟩) = none)
    (hsome : f (l.get ⟨i, hi⟩) = some b) : l.findSome? f = some b := by
  induction l generalizing i with
  | nil => simp at hi
  | cons x xs ih =>
    cases i with
    | zero =>
      rw [List.findSome?_cons]
      have : f x = some b := hsome
      rw [this]
    | succ j =>
      rw [List.findSome?_cons]
      have h0 : f x = none := hbefore 0 (Nat.succ_pos j)
      rw [h0]
      exact ih j (Nat.lt_of_succ_lt_succ hi)
        (fun k hk => hbefore (k + 1) (Nat.succ_lt_succ hk)) hsome

/-! ## Demo data used by counterexamples and witnesses -/

/-- A field whose id/name normalise to `price` (example fields of the
claims are written `{id:"price"}`; real Contentful fields always carry a
display name, taken here equal to the id). -/
def priceField : ContentfulField :=
  { id := "price", name := "price", type := "Symbol", required := false,
    localized := false, linkType := none, itemsType := none, itemsLinkType := none }

def costField : ContentfulField :=
  { id := "cost", name := "cost", type := "Symbol", required := false,
    localized := false, linkType := none, itemsType := none, itemsLinkType := none }

/-- A field whose normalised id `pri` is a proper substring of `price`. -/
def priField : ContentfulField :=
  { id := "pri", name := "pri", type := "Symbol", required := false,
    localized := false, linkType := none, itemsType := none, itemsLinkType := none }

/-! ## Claims -/

/-- C8: the fallback field mapper is deterministic — for a fixed pair of
argument lists two invocations return equal mapping lists (same entries,
same order).  In the embedding `fallbackFieldMapping` is a pure function of
exactly its two arguments (the source method reads no other state), so the
two invocations are literally the same value. -/
theorem C8_fallback_deterministic :
    ∀ (headers : List String) (fields : List ContentfulField),
      fallbackFieldMapping headers fields = fallbackFieldMapping headers fields :=
  fun _ _ => rfl

/-- C1 counterexample: the claim says an exact-name match always beats a
substring match, but the scan is a single pass over the fields — for header
`"Price"` and fields `[pri, price]`, the field `price` exact-matches the
header (`normalizeKey` equality shown), yet the single recorded mapping is
the confidence-0.5 substring mapping to `pri`. -/
theorem C1_counterexample :
    normalizeKey "price" = normalizeKey "Price" ∧
    fallbackFieldMapping ["Price"] [priField, priceField] =
      [{ sourceField := "Price", targetField := "pri", confidence := 0.5 }] := by
  constructor
  · rfl
  · rfl

/-- C1 (amended): the fallback mapper scans target fields in declaration
order and, for each header, records the first field that matches at all —
checking the exact normalized match (confidence 0.8) before the substring
match (confidence 0.5) for each individual field.  Hence an exact match is
recorded whenever no earlier field matches in either way; and the claim's
example — header `"Price"` with fields `[price, cost]` — yields exactly the
single mapping `{sourceField:"Price", targetField:"price",
confidence:0.8}`. -/
theorem C1_fallback_exact_precedence
    (headers : List String) (fields : List ContentfulField) (header : String)
    (i : Nat) (hi : i < fields.length) (hmem : header ∈ headers)
    (hex : normalizeKey header = normalizeKey (fields.get ⟨i, hi⟩).id ∨
           normalizeKey header = normalizeKey (fields.get ⟨i, hi⟩).name)
    (hbefore : ∀ j (hj : j < i),
      fieldMatchFor (normalizeKey header) header
        (fields.get ⟨j, Nat.lt_trans hj hi⟩) = none) :
    ({ sourceField := header, targetField := (fields.get ⟨i, hi⟩).id,
       confidence := 0.8 } : FieldMapping) ∈ fallbackFieldMapping headers fields ∧
    fallbackFieldMapping ["Price"] [priceField, costField] =
      [{ sourceField := "Price", targetField := "price", confidence := 0.8 }] := by
  refine ⟨?_, rfl⟩
  have hmatch : fieldMatchFor (normalizeKey header) header (fields.get ⟨i, hi⟩) =
      some { sourceField := header, targetField := (fields.get ⟨i, hi⟩).id,
             confidence := 0.8 } := by
    unfold fieldMatchFor
    rcases hex with h | h
    · rw [if_pos]
      simp [h]
    · rw [if_pos]
      simp [h]
  have hfirst : firstFieldMatch header fields =
      some { sourceField := header, targetField := (fields.get ⟨i, hi⟩).id,
             confidence := 0.8 } :=
    findSome?_of_prefix_none _ fields i hi _ hbefore hmatch
  exact List.mem_filterMap.mpr ⟨header, hmem, hfirst⟩

/-- C1 witness: instantiating the amended precedence theorem at header
`"Price"` with fields `[cost, price]` (the non-matching field first, the
exact-matching field at index 1). -/
theorem C1_witness :
    ({ sourceField := "Price", targetField := "price", confidence := 0.8 } :
        FieldMapping) ∈ fallbackFieldMapping ["Price"] [costField, priceField] ∧
    fallbackFieldMapping ["Price"] [priceField, costField] =
      [{ sourceField := "Price", targetField := "price", confidence := 0.8 }] := by
  have h := C1_fallback_exact_precedence ["Price"] [costField, priceField]
    "Price" 1 (by decide) (by simp) (Or.inl rfl)
    (fun j hj => by
      match j, hj with
      | 0, _ => rfl)
  exact h

/-- A single Entry-reference target field. -/
def entryRefField : ContentfulField :=
  { id := "author", name := "Author", type := "Link", required := false,
    localized := false, linkType := some "Entry", itemsType := none,
    itemsLinkType := none }

/-- A mapping value for calls to `transformValue` (the parameter is unused
by the function body, as in the source). -/
def refMapping : FieldMapping :=
  { sourceField := "Author", targetField := "author", confidence := 1 }

lemma isLookup_jsTrim (s : String) :
    isLookup (jsTrim s) = strStarts (jsTrim s) "lookup:" := by
  unfold isLookup
  rw [jsTrim_idem]

/-- C3 counterexample: `"lookup:slug"` is a non-empty string that does not
satisfy the lookup pattern (only two `":"`-segments), so the claim's
"every other non-empty string yields an immediate entry link" clause
asserts an immediate link for it — but transforming it for an
Entry-reference field throws the invalid-lookup-format error instead. -/
theorem C3_counterexample :
    ("lookup:slug" ≠ "" ∧
      (splitOnChar ':' (jsTrim "lookup:slug").data).length = 2) ∧
    transformValue (JsValue.vstr "lookup:slug") refMapping (some entryRefField) =
      Except.error
        "Invalid lookup format: \"lookup:slug\". Expected \"lookup:<fieldId>:<value>\"" := by
  exact ⟨⟨by decide, rfl⟩, rfl⟩

/-- Reduction of `transformValue` for an Entry-reference field definition
(the `"Link"` dispatch arm with `linkType ≠ "Asset"`). -/
lemma transformValue_link_entry_str (s : String) (m : FieldMapping)
    (fid fname : String) (frq flo : Bool) (fit filt : Option String) :
    transformValue (JsValue.vstr s) m
      (some { id := fid, name := fname, type := "Link", required := frq,
              localized := flo, linkType := some "Entry", itemsType := fit,
              itemsLinkType := filt }) =
    (if isLookup (jsTrim s) then
       (parseLookup (jsTrim s)).map (fun lr =>
         TValue.vlookup lr.field lr.value "Entry")
     else Except.ok (TValue.vlink (toEntryLink (jsTrim s)))) := rfl

/-- C3 (amended): for an Entry-reference field, a cell whose trimmed form
is `lookup:<field>:<value>` with a colon-free `<field>` becomes a deferred
lookup placeholder carrying that field and the full remainder (colons in
the value preserved verbatim); and every non-empty cell whose trimmed form
does NOT begin with `"lookup:"` becomes an immediate entry link whose id
is the trimmed string.  (The original claim's complement clause also
covered `"lookup:"`-prefixed strings with fewer than three segments, which
in fact throw — see the counterexample and C10.) -/
theorem C3_reference_deferral
    (s f v : String) (m : FieldMapping) (fd : ContentfulField)
    (hty : fd.type = "Link") (hlt : fd.linkType = some "Entry") :
    ((jsTrim s).data = "lookup:".data ++ f.data ++ ':' :: v.data →
      (∀ x ∈ f.data, x ≠ ':') →
      transformValue (JsValue.vstr s) m (some fd) =
        Except.ok (TValue.vlookup f v "Entry")) ∧
    (strStarts (jsTrim s) "lookup:" = false → s ≠ "" →
      transformValue (JsValue.vstr s) m (some fd) =
        Except.ok (TValue.vlink { linkType := "Entry", id := jsTrim s })) := by
  obtain ⟨fid, fname, fty, frq, flo, flt, fit, filt⟩ := fd
  simp only at hty hlt
  subst hty hlt
  rw [transformValue_link_entry_str]
  constructor
  · intro hdata hcolonfree
    have hlk : isLookup (jsTrim s) = true := by
      rw [isLookup_jsTrim]
      unfold strStarts
      rw [hdata, List.append_assoc]
      exact startsWithSeq_append _ _
    have hsplit : splitOnChar ':' (jsTrim (jsTrim s)).data =
        "lookup".data :: f.data :: splitOnChar ':' v.data := by
      rw [jsTrim_idem, hdata]
      have h1 : "lookup:".data ++ f.data ++ ':' :: v.data =
          "lookup".data ++ ':' :: (f.data ++ ':' :: v.data) := by
        simp
      rw [h1, splitOnChar_append ':' _ _ (by decide),
          splitOnChar_append ':' _ _ hcolonfree]
    obtain ⟨v0, vs, hv⟩ :
        ∃ v0 vs, splitOnChar ':' v.data = v0 :: vs := by
      cases hs : splitOnChar ':' v.data with
      | nil => exact absurd hs (splitOnCharAux_ne_nil ':' [] v.data)
      | cons v0 vs => exact ⟨v0, vs, rfl⟩
    have hparse : parseLookup (jsTrim s) =
        Except.ok { field := f, value := v } := by
      unfold parseLookup
      rw [hsplit, hv]
      have hjoin : joinByChar ':' (v0 :: vs) = v.data := by
        rw [← hv]
        exact joinByChar_splitOnChar ':' v.data
      simp [hjoin]
    simp only [hlk, if_true, hparse, Except.map]
  · intro hpre hne
    have hlk : isLookup (jsTrim s) = false := by
      rw [isLookup_jsTrim, hpre]
    have hlink : toEntryLink (jsTrim s) =
        { linkType := "Entry", id := jsTrim s } := by
      unfold toEntryLink
      rw [jsTrim_idem]
    simp only [hlk, hlink, if_false, Bool.false_eq_true]

/-- C3 witness: the amended theorem applied at the claim's own examples —
`"lookup:slug:my-post"` defers, `"entry123"` links immediately. -/
theorem C3_witness :
    transformValue (JsValue.vstr "lookup:slug:my-post") refMapping
        (some entryRefField) =
      Except.ok (TValue.vlookup "slug" "my-post" "Entry") ∧
    transformValue (JsValue.vstr "entry123") refMapping (some entryRefField) =
      Except.ok (TValue.vlink { linkType := "Entry", id := "entry123" }) := by
  have h1 := (C3_reference_deferral "lookup:slug:my-post" "slug" "my-post"
    refMapping entryRefField rfl rfl).1 rfl (by decide)
  have h2 := (C3_reference_deferral "entry123" "slug" "x"
    refMapping entryRefField rfl rfl).2 rfl (by decide)
  exact ⟨h1, h2⟩

/-- C10: a cell whose trimmed form starts with `"lookup:"` but splits on
`":"` into fewer than three segments throws the invalid-lookup-format
error when transformed for an Entry-reference field — it is neither
treated as a direct entry id nor turned into a deferred placeholder. -/
theorem C10_short_lookup_throws
    (s : String) (m : FieldMapping) (fd : ContentfulField)
    (hty : fd.type = "Link") (hlt : fd.linkType = some "Entry")
    (hpre : strStarts (jsTrim s) "lookup:" = true)
    (hlen : (splitOnChar ':' (jsTrim s).data).length < 3) :
    transformValue (JsValue.vstr s) m (some fd) =
      Except.error ("Invalid lookup format: \"" ++ jsTrim s ++
        "\". Expected \"lookup:<fieldId>:<value>\"") := by
  obtain ⟨fid, fname, fty, frq, flo, flt, fit, filt⟩ := fd
  simp only at hty hlt
  subst hty hlt
  rw [transformValue_link_entry_str]
  have hlk : isLookup (jsTrim s) = true := by
    rw [isLookup_jsTrim]
    exact hpre
  have hparse : parseLookup (jsTrim s) =
      Except.error ("Invalid lookup format: \"" ++ jsTrim s ++
        "\". Expected \"lookup:<fieldId>:<value>\"") := by
    unfold parseLookup
    rw [jsTrim_idem]
    cases hsp : splitOnChar ':' (jsTrim s).data with
    | nil => rfl
    | cons a t1 =>
      cases t1 with
      | nil => rfl
      | cons b t2 =>
        cases t2 with
        | nil => rfl
        | cons c t3 =>
          rw [hsp] at hlen
          simp only [List.length_cons] at hlen
          exact absurd hlen (by omega)
  simp only [hlk, if_true, hparse, Except.map]

/-- C10 witness: the theorem applied at the concrete cell
`"lookup:slug"`. -/
theorem C10_witness :
    transformValue (JsValue.vstr "lookup:slug") refMapping
        (some entryRefField) =
      Except.error
        "Invalid lookup format: \"lookup:slug\". Expected \"lookup:<fieldId>:<value>\"" :=
  C10_short_lookup_throws "lookup:slug" refMapping entryRefField rfl rfl rfl
    (by decide)

lemma toLocation_pair (s : String) (p0 p1 : List Char)
    (hp : (splitOnChar ',' s.data).map jsTrimList = [p0, p1]) :
    toLocation s =
      (if parseFloatJs ⟨p0⟩ = JsNum.nan || parseFloatJs ⟨p1⟩ = JsNum.nan then
        Except.error ("Invalid location coordinates: \"" ++ s ++
          "\". Both lat and lon must be numbers.")
      else if jsNumOutside (parseFloatJs ⟨p0⟩) (-90) 90 then
        Except.error ("Latitude " ++ jsNumText (parseFloatJs ⟨p0⟩) ++
          " is out of range. Must be between -90 and 90.")
      else if jsNumOutside (parseFloatJs ⟨p1⟩) (-180) 180 then
        Except.error ("Longitude " ++ jsNumText (parseFloatJs ⟨p1⟩) ++
          " is out of range. Must be between -180 and 180.")
      else Except.ok { lat := jsNumFinite (parseFloatJs ⟨p0⟩),
                       lon := jsNumFinite (parseFloatJs ⟨p1⟩) }) := by
  unfold toLocation
  rw [hp]

lemma toLocation_not_pair (s : String)
    (hp : ∀ p0 p1, (splitOnChar ',' s.data).map jsTrimList ≠ [p0, p1]) :
    toLocation s =
      Except.error ("Invalid location format: \"" ++ s ++
        "\". Expected \"lat,lon\" (e.g. \"40.7128,-74.0060\")") := by
  unfold toLocation
  cases hq : (splitOnChar ',' s.data).map jsTrimList with
  | nil => rfl
  | cons p0 t =>
    cases t with
    | nil => rfl
    | cons p1 t2 =>
      cases t2 with
      | nil => exact absurd hq (hp p0 p1)
      | cons q t3 => rfl

/-- C4: transforming a string for a GeoPoint/Location field succeeds
exactly when the string splits on `","` into exactly two (trimmed) parts
that both parse (via JS `parseFloat`) as finite numbers with latitude in
`[-90, 90]` and longitude in `[-180, 180]`; in every other case it throws.
In particular `"90,180"` succeeds with `{lat := 90, lon := 180}` while
`"90.0001,0"` and `"0,-180.0001"` throw. -/
theorem C4_geopoint_boundary (s : String) :
    ((∃ lv, toLocation s = Except.ok lv) ↔
      ∃ p0 p1 lat lon,
        (splitOnChar ',' s.data).map jsTrimList = [p0, p1] ∧
        parseFloatJs ⟨p0⟩ = JsNum.val lat ∧ parseFloatJs ⟨p1⟩ = JsNum.val lon ∧
        -90 ≤ lat ∧ lat ≤ 90 ∧ -180 ≤ lon ∧ lon ≤ 180) ∧
    toLocation "90,180" = Except.ok { lat := 90, lon := 180 } ∧
    (toLocation "90.0001,0").isOk = false ∧
    (toLocation "0,-180.0001").isOk = false := by
  refine ⟨?_, by with_unfolding_all rfl, by with_unfolding_all rfl,
    by with_unfolding_all rfl⟩
  by_cases hpair : ∃ p0 p1, (splitOnChar ',' s.data).map jsTrimList = [p0, p1]
  · obtain ⟨p0, p1, hp⟩ := hpair
    rw [toLocation_pair s p0 p1 hp]
    cases hlat : parseFloatJs ⟨p0⟩ with
    | nan => simp [hp, hlat]
    | inf bsign =>
      constructor
      · rintro ⟨lv, hlv⟩
        split at hlv
        · simp at hlv
        · rw [if_pos (by simp [jsNumOutside])] at hlv
          simp at hlv
      · rintro ⟨p0', p1', lat, lon, hshape, hx, -⟩
        obtain ⟨rfl, rfl⟩ : p0 = p0' ∧ p1 = p1' := by
          rw [hp] at hshape
          simpa using hshape
        rw [hlat] at hx
        simp at hx
    | val a =>
      cases hlon : parseFloatJs ⟨p1⟩ with
      | nan => simp [hp, hlat, hlon]
      | inf bsign =>
        constructor
        · rintro ⟨lv, hlv⟩
          split at hlv
          · simp at hlv
          · split at hlv
            · simp at hlv
            · rw [if_pos (by simp [jsNumOutside])] at hlv
              simp at hlv
        · rintro ⟨p0', p1', lat, lon, hshape, hx, hy, -⟩
          obtain ⟨rfl, rfl⟩ : p0 = p0' ∧ p1 = p1' := by
            rw [hp] at hshape
            simpa using hshape
          rw [hlon] at hy
          simp at hy
      | val b =>
        by_cases ha : a < -90 ∨ 90 < a
        · constructor
          · rintro ⟨lv, hlv⟩
            rw [if_neg (by simp [hlat, hlon]),
                if_pos (by simp [hlat, jsNumOutside, ha])] at hlv
            simp at hlv
          · rintro ⟨p0', p1', lat, lon, hshape, hx, hy, h1, h2, h3, h4⟩
            obtain ⟨rfl, rfl⟩ : p0 = p0' ∧ p1 = p1' := by
              rw [hp] at hshape
              simpa using hshape
            rw [hlat] at hx
            obtain rfl : a = lat := by simpa using hx
            rcases ha with h | h <;> linarith
        · by_cases hb : b < -180 ∨ 180 < b
          · constructor
            · rintro ⟨lv, hlv⟩
              rw [if_neg (by simp [hlat, hlon]),
                  if_neg (by simp [hlat, jsNumOutside, ha]),
                  if_pos (by simp [hlon, jsNumOutside, hb])] at hlv
              simp at hlv
            · rintro ⟨p0', p1', lat, lon, hshape, hx, hy, h1, h2, h3, h4⟩
              obtain ⟨rfl, rfl⟩ : p0 = p0' ∧ p1 = p1' := by
                rw [hp] at hshape
                simpa using hshape
              rw [hlon] at hy
              obtain rfl : b = lon := by simpa using hy
              rcases hb with h | h <;> linarith
          · push_neg at ha hb
            constructor
            · rintro -
              exact ⟨p0, p1, a, b, hp, hlat, hlon, ha.1, ha.2, hb.1, hb.2⟩
            · rintro -
              refine ⟨{ lat := a, lon := b }, ?_⟩
              rw [if_neg (by simp [hlat, hlon]),
                  if_neg (by simp [hlat, jsNumOutside, ha.1, ha.2]),
                  if_neg (by simp [hlon, jsNumOutside, hb.1, hb.2])]
              rfl
  · push_neg at hpair
    rw [toLocation_not_pair s hpair]
    constructor
    · rintro ⟨lv, hlv⟩
      simp at hlv
    · rintro ⟨p0', p1', lat, lon, hshape, -⟩
      exact absurd hshape (hpair p0' p1')

/-- C4 witness: the boundary theorem applied at `"90,180"`. -/
theorem C4_witness :
    toLocation "90,180" = Except.ok { lat := 90, lon := 180 } :=
  (C4_geopoint_boundary "90,180").2.1

lemma contains_iff_mem {l : List String} {a : String} :
    l.contains a = true ↔ a ∈ l := List.elem_iff

lemma boolTokenChain (t e : String) :
    ((if ["true", "yes", "1", "y"].contains t then (Except.ok true : Except String Bool)
      else if ["false", "no", "0", "n"].contains t then Except.ok false
      else Except.error e) = Except.ok true ↔ t ∈ ["true", "yes", "1", "y"]) ∧
    ((if ["true", "yes", "1", "y"].contains t then (Except.ok true : Except String Bool)
      else if ["false", "no", "0", "n"].contains t then Except.ok false
      else Except.error e) = Except.ok false ↔ t ∈ ["false", "no", "0", "n"]) ∧
    ((if ["true", "yes", "1", "y"].contains t then (Except.ok true : Except String Bool)
      else if ["false", "no", "0", "n"].contains t then Except.ok false
      else Except.error e).isOk = false ↔
      t ∉ ["true", "yes", "1", "y", "false", "no", "0", "n"]) := by
  by_cases h1 : t ∈ ["true", "yes", "1", "y"]
  · have hc1 : (["true", "yes", "1", "y"].contains t) = true :=
      contains_iff_mem.mpr h1
    have hnotB : t ∉ ["false", "no", "0", "n"] := by
      simp only [List.mem_cons, List.not_mem_nil, or_false] at h1
      rcases h1 with rfl | rfl | rfl | rfl <;> decide
    have hAll : t ∈ ["true", "yes", "1", "y", "false", "no", "0", "n"] := by
      simp only [List.mem_cons, List.not_mem_nil, or_false] at h1 ⊢
      tauto
    simp [hc1, h1, hnotB, hAll, Except.isOk, Except.toBool]
  · by_cases h2 : t ∈ ["false", "no", "0", "n"]
    · have hc1 : (["true", "yes", "1", "y"].contains t) = false := by
        rw [← Bool.not_eq_true]
        intro hc
        exact h1 (contains_iff_mem.mp hc)
      have hc2 : (["false", "no", "0", "n"].contains t) = true :=
        contains_iff_mem.mpr h2
      have hAll : t ∈ ["true", "yes", "1", "y", "false", "no", "0", "n"] := by
        simp only [List.mem_cons, List.not_mem_nil, or_false] at h2 ⊢
        tauto
      simp [hc1, hc2, h1, h2, hAll, Except.isOk, Except.toBool]
    · have hc1 : (["true", "yes", "1", "y"].contains t) = false := by
        rw [← Bool.not_eq_true]
        intro hc
        exact h1 (contains_iff_mem.mp hc)
      have hc2 : (["false", "no", "0", "n"].contains t) = false := by
        rw [← Bool.not_eq_true]
        intro hc
        exact h2 (contains_iff_mem.mp hc)
      have hAll : t ∉ ["true", "yes", "1", "y", "false", "no", "0", "n"] := by
        simp only [List.mem_cons, List.not_mem_nil, or_false] at h1 h2 ⊢
        tauto
      simp [hc1, hc2, h1, h2, hAll, Except.isOk, Except.toBool]

/-- C5: the Boolean transform is total over the recognised token set and
throws on everything else — it returns `true` exactly when the lower-cased
trimmed string form of the input is in `{true, yes, 1, y}`, `false`
exactly for `{false, no, 0, n}`, and throws in every other case (boolean
inputs short-circuit, consistently with their string forms). -/
theorem C5_boolean_totality (v : JsValue) :
    (toBoolean v = Except.ok true ↔
      jsTrim (jsToLower (jsString v)) ∈ ["true", "yes", "1", "y"]) ∧
    (toBoolean v = Except.ok false ↔
      jsTrim (jsToLower (jsString v)) ∈ ["false", "no", "0", "n"]) ∧
    ((toBoolean v).isOk = false ↔
      jsTrim (jsToLower (jsString v)) ∉
        ["true", "yes", "1", "y", "false", "no", "0", "n"]) := by
  have core : ∀ w : JsValue, (∀ b, w ≠ JsValue.vbool b) →
      (toBoolean w = if ["true", "yes", "1", "y"].contains (jsTrim (jsToLower (jsString w))) then
          Except.ok true
        else if ["false", "no", "0", "n"].contains (jsTrim (jsToLower (jsString w))) then
          Except.ok false
        else Except.error ("Cannot convert \"" ++ jsString w ++ "\" to boolean")) := by
    intro w hw
    cases w with
    | vbool b => exact absurd rfl (hw b)
    | vstr s => rfl
    | vnull => rfl
  cases v with
  | vbool b =>
    cases b <;>
      simp [toBoolean, jsString, jsTrim, jsToLower, jsTrimList] <;> decide
  | vstr s =>
    rw [core (JsValue.vstr s) (by intro b h; cases h)]
    exact boolTokenChain _ _
  | vnull =>
    rw [core JsValue.vnull (by intro b h; cases h)]
    exact boolTokenChain _ _

/-- C5 witness: the totality theorem applied at each token the claim lists,
and at `"maybe"`. -/
theorem C5_witness :
    toBoolean (JsValue.vstr "true") = Except.ok true ∧
    toBoolean (JsValue.vstr "YES") = Except.ok true ∧
    toBoolean (JsValue.vstr "1") = Except.ok true ∧
    toBoolean (JsValue.vstr "y") = Except.ok true ∧
    toBoolean (JsValue.vstr "false") = Except.ok false ∧
    toBoolean (JsValue.vstr "NO") = Except.ok false ∧
    toBoolean (JsValue.vstr "0") = Except.ok false ∧
    toBoolean (JsValue.vstr "N") = Except.ok false ∧
    (toBoolean (JsValue.vstr "maybe")).isOk = false :=
  ⟨(C5_boolean_totality (JsValue.vstr "true")).1.mpr (by decide),
   (C5_boolean_totality (JsValue.vstr "YES")).1.mpr (by decide),
   (C5_boolean_totality (JsValue.vstr "1")).1.mpr (by decide),
   (C5_boolean_totality (JsValue.vstr "y")).1.mpr (by decide),
   (C5_boolean_totality (JsValue.vstr "false")).2.1.mpr (by decide),
   (C5_boolean_totality (JsValue.vstr "NO")).2.1.mpr (by decide),
   (C5_boolean_totality (JsValue.vstr "0")).2.1.mpr (by decide),
   (C5_boolean_totality (JsValue.vstr "N")).2.1.mpr (by decide),
   (C5_boolean_totality (JsValue.vstr "maybe")).2.2.mpr (by decide)⟩

/-- A Boolean-typed target field for preview validation. -/
def boolPreviewField : ContentfulField :=
  { id := "flag", name := "Flag", type := "Boolean", required := false,
    localized := false, linkType := none, itemsType := none,
    itemsLinkType := none }

/-- C6 counterexample: the cell `" true"` is non-empty and its trimmed
lower-cased form `"true"` is in the recognised token set, so the claim
says no error is emitted — but the Boolean branch of `validateFieldValue`
lower-cases WITHOUT trimming, and does emit an error. -/
theorem C6_counterexample :
    jsTrim (jsToLower (jsString (JsValue.vstr " true"))) = "true" ∧
    "true" ∈ previewBoolTokens ∧
    validateFieldValue (some (JsValue.vstr " true")) boolPreviewField 2 "col" =
      [{ row := 2, field := "col",
         message := "\"Flag\" should be a boolean value (true/false, yes/no, 1/0)",
         value := some (JsValue.vstr " true") }] :=
  ⟨rfl, by decide, rfl⟩

/-- Reduction of `validateFieldValue` at a Boolean-typed field. -/
lemma validateFieldValue_boolean (v : JsValue) (fid fname : String)
    (frq flo : Bool) (flt fit filt : Option String) (rn : Nat) (sf : String) :
    validateFieldValue (some v)
      { id := fid, name := fname, type := "Boolean", required := frq,
        localized := flo, linkType := flt, itemsType := fit,
        itemsLinkType := filt } rn sf =
    (if frq && jsEmptyCell (some v) then
      [{ row := rn, field := sf,
         message := "Required field \"" ++ fname ++ "\" is empty",
         value := some v }]
    else if jsEmptyCell (some v) then []
    else if !previewBoolTokens.contains (jsToLower (jsString v)) then
      [{ row := rn, field := sf,
         message := "\"" ++ fname ++
           "\" should be a boolean value (true/false, yes/no, 1/0)",
         value := some v }]
    else []) := rfl

/-- C6 (amended): for a Boolean-typed target field and a non-empty cell
value, a validation error is emitted if and only if the lower-cased —
but NOT trimmed — string form of the cell is outside
`{true, false, yes, no, 1, 0, y, n}`.  (The original claim said the
trimmed lower-cased form decides; the Boolean branch skips the trim, so a
padded token such as `" true"` errors — see the counterexample.) -/
theorem C6_boolean_preview (field : ContentfulField)
    (hty : field.type = "Boolean") (v : JsValue) (rowNumber : Nat)
    (sourceField : String) (hne : jsEmptyCell (some v) = false) :
    validateFieldValue (some v) field rowNumber sourceField ≠ [] ↔
      jsToLower (jsString v) ∉ previewBoolTokens := by
  obtain ⟨fid, fname, fty, frq, flo, flt, fit, filt⟩ := field
  simp only at hty
  subst hty
  rw [validateFieldValue_boolean, hne]
  simp only [Bool.and_false, if_false, Bool.false_eq_true]
  by_cases hb : previewBoolTokens.contains (jsToLower (jsString v))
  · rw [if_neg (by rw [hb]; decide)]
    simp [contains_iff_mem.mp hb]
  · rw [if_pos (by simp [Bool.not_eq_true] at hb ⊢; exact hb)]
    have : jsToLower (jsString v) ∉ previewBoolTokens := fun hmem =>
      absurd (contains_iff_mem.mpr hmem) (by simpa using hb)
    simp [this]

/-- C6 witness: the amended theorem applied at `"maybe"` (error emitted)
and at `"yes"` (no error). -/
theorem C6_witness :
    validateFieldValue (some (JsValue.vstr "maybe")) boolPreviewField 2 "col" ≠ [] ∧
    validateFieldValue (some (JsValue.vstr "yes")) boolPreviewField 2 "col" = [] := by
  have h1 := (C6_boolean_preview boolPreviewField rfl (JsValue.vstr "maybe")
    2 "col" rfl).mpr (by decide)
  have h2 := C6_boolean_preview boolPreviewField rfl (JsValue.vstr "yes")
    2 "col" rfl
  refine ⟨h1, ?_⟩
  by_contra hne
  exact (h2.mp hne) (by decide)

lemma validateFieldValue_row (value : Option JsValue) (field : ContentfulField)
    (rn : Nat) (sf : String) :
    ∀ e ∈ validateFieldValue value field rn sf, e.row = rn := by
  intro e he
  unfold validateFieldValue at he
  repeat' split at he
  all_goals try simp_all
  all_goals
    (rename_i v x h heq
     cases hj : jsonParse (jsTrim (jsString v)) with
     | none =>
       rw [hj] at he
       simp_all
     | some jv =>
       rw [hj] at he
       cases jv <;> simp_all)

/-- C7: row validation samples at most the first 100 rows — the error list
is computed from `rows.take 100` alone (so it is unchanged when the input
is truncated to its first 100 rows), every per-cell error carries a row
number `i + 2` for some sampled index `i < min N 100`, and whenever
`N > 100` the suggestions include the truncation notice; import
eligibility is untouched (validation returns a result, it filters no
rows). -/
theorem C7_validation_sampling (pf : ParsedFileResult) (ct : ContentfulContentType)
    (mf : List FieldMapping) :
    (validateContent pf ct mf).errors =
      (validateContent { pf with rows := pf.rows.take 100 } ct mf).errors ∧
    (∀ e ∈ (validateContent pf ct mf).errors,
      ∃ i, i < min pf.rows.length 100 ∧ e.row = i + 2) ∧
    (100 < pf.rows.length →
      truncationMsg pf.rows.length ∈ (validateContent pf ct mf).suggestions) := by
  refine ⟨?_, ?_, ?_⟩
  · show ((pf.rows.take 100).enum).flatMap _ =
      (((pf.rows.take 100).take 100).enum).flatMap _
    rw [List.take_take, Nat.min_self]
  · intro e he
    have he2 : e ∈ ((pf.rows.take 100).enum).flatMap (fun p =>
        mf.flatMap (fun mapping =>
          match ct.fields.find? (fun f => f.id == mapping.targetField) with
          | some targetField =>
            validateFieldValue (rowGet p.2 mapping.sourceField) targetField
              (p.1 + 2) mapping.sourceField
          | none => [])) := he
    rw [List.mem_flatMap] at he2
    obtain ⟨p, hp, hin⟩ := he2
    rw [List.mem_flatMap] at hin
    obtain ⟨mapping, hm, hin2⟩ := hin
    refine ⟨p.1, ?_, ?_⟩
    · have := List.mem_enum_iff_getElem?.mp hp
      have hlt := List.getElem?_eq_some.mp this
      obtain ⟨hlt, -⟩ := hlt
      rw [List.length_take] at hlt
      omega
    · revert hin2
      cases ct.fields.find? (fun f => f.id == mapping.targetField) with
      | some targetField =>
        intro hin2
        exact validateFieldValue_row _ _ _ _ e hin2
      | none =>
        intro hin2
        simp at hin2
  · intro hlen
    show truncationMsg pf.rows.length ∈ _ ++ _
    rw [List.mem_append]
    right
    rw [if_pos hlen]
    simp

/-- A parsed file with 150 (empty) data rows. -/
def bigFile : ParsedFileResult :=
  { headers := [], rows := List.replicate 150 ([] : ContentRow),
    fileName := "demo.csv", totalRows := 150, errors := [] }

/-- An empty content type for validation demos. -/
def emptyCT : ContentfulContentType :=
  { id := "post", name := "Post", fields := [] }

/-- C7 witness: the sampling theorem applied at a 150-row file — the
truncation suggestion is present. -/
theorem C7_witness :
    truncationMsg 150 ∈ (validateContent bigFile emptyCT []).suggestions := by
  have h := (C7_validation_sampling bigFile emptyCT []).2.2 (by simp [bigFile])
  simpa [bigFile] using h

mutual

/-- The claim's invariant, as stated: the document node and every non-text
node it contains (all block nodes, and the hyperlink inline container)
have at least one child. -/
def allNodesNonEmpty : RTNode → Bool
  | RTNode.text _ _ => true
  | RTNode.elem _ _ c => !c.isEmpty && allNodesList c

def allNodesList : List RTNode → Bool
  | [] => true
  | n :: ns => allNodesNonEmpty n && allNodesList ns

end

mutual

/-- The invariant the code actually maintains: every non-text node except
a horizontal rule (`"hr"`, emitted with empty content) has at least one
child. -/
def nonHrNonEmpty : RTNode → Bool
  | RTNode.text _ _ => true
  | RTNode.elem t _ c => (t == "hr" || !c.isEmpty) && nonHrList c

def nonHrList : List RTNode → Bool
  | [] => true
  | n :: ns => nonHrNonEmpty n && nonHrList ns

end

lemma tryMatchAt_node_ok {l : List Char} {n : RTNode} {r : List Char}
    (h : tryMatchAt l = some (n, r)) : nonHrNonEmpty n = true := by
  unfold tryMatchAt at h
  split at h
  · split at h
    · simp only [Option.some.injEq, Prod.mk.injEq] at h
      obtain ⟨rfl, -⟩ := h
      rfl
    · split at h
      · simp only [Option.some.injEq, Prod.mk.injEq] at h
        obtain ⟨rfl, -⟩ := h
        rfl
      · simp at h
  · split at h
    · simp only [Option.some.injEq, Prod.mk.injEq] at h
      obtain ⟨rfl, -⟩ := h
      rfl
    · simp at h
  · split at h
    · simp only [Option.some.injEq, Prod.mk.injEq] at h
      obtain ⟨rfl, -⟩ := h
      rfl
    · simp at h
  · simp at h

lemma flushPlain_ok {acc : List Char} {ns : List RTNode}
    (h : nonHrList ns = true) : nonHrList (flushPlain acc ns) = true := by
  unfold flushPlain
  split
  · exact h
  · simp [nonHrList, nonHrNonEmpty, h]

lemma inlineScan_ok : ∀ (fuel : Nat) (acc rem : List Char),
    nonHrList (inlineScan fuel acc rem) = true := by
  intro fuel
  induction fuel with
  | zero =>
    intro acc rem
    cases rem with
    | nil => exact flushPlain_ok rfl
    | cons c rest => exact flushPlain_ok rfl
  | succ fuel ih =>
    intro acc rem
    cases rem with
    | nil => exact flushPlain_ok rfl
    | cons c rest =>
      rw [inlineScan]
      cases hm : tryMatchAt (c :: rest) with
      | some p =>
        obtain ⟨node, after⟩ := p
        apply flushPlain_ok
        simp [nonHrList, tryMatchAt_node_ok hm, ih [] after]
      | none => exact ih (c :: acc) rest

lemma parseInlineText_ok (t : String) :
    nonHrList (parseInlineText t) = true := by
  unfold parseInlineText
  dsimp only
  split
  · rfl
  · exact inlineScan_ok _ _ _

lemma parseInlineText_ne_nil (t : String) : parseInlineText t ≠ [] := by
  unfold parseInlineText
  dsimp only
  split
  · simp
  · rename_i h
    intro hnil
    exact h (by rw [hnil]; rfl)

lemma parseInlineText_isEmpty_false (t : String) :
    (parseInlineText t).isEmpty = false := by
  cases h : parseInlineText t with
  | nil => exact absurd h (parseInlineText_ne_nil t)
  | cons a l => rfl

lemma paragraphNode_ok (t : String) :
    nonHrNonEmpty (RTNode.elem "paragraph" [] (parseInlineText t)) = true := by
  rw [nonHrNonEmpty]
  simp [parseInlineText_isEmpty_false, parseInlineText_ok]

lemma listItemNode_ok (t : String) :
    nonHrNonEmpty (listItemNode t) = true := by
  unfold listItemNode
  rw [nonHrNonEmpty]
  simp [nonHrList, paragraphNode_ok]

lemma nonHrList_of_forall (ns : List RTNode)
    (h : ∀ n ∈ ns, nonHrNonEmpty n = true) : nonHrList ns = true := by
  induction ns with
  | nil => rfl
  | cons n ns ih =>
    rw [nonHrList]
    simp [h n (by simp), ih (fun m hm => h m (by simp [hm]))]

lemma mdBlocks_ok : ∀ (fuel : Nat) (lines : List String),
    nonHrList (mdBlocks fuel lines) = true := by
  intro fuel
  induction fuel with
  | zero => intro lines; cases lines <;> rfl
  | succ fuel ih =>
    intro lines
    cases lines with
    | nil => rfl
    | cons line rest =>
      rw [mdBlocks]
      split
      · exact ih rest
      · split
        · rw [nonHrList]
          simp [nonHrNonEmpty, nonHrList, ih rest]
        · split
          · rw [nonHrList, nonHrNonEmpty]
            simp [parseInlineText_isEmpty_false, parseInlineText_ok, ih rest]
          · split
            · rw [nonHrList, nonHrNonEmpty]
              simp [nonHrList, paragraphNode_ok, ih rest]
            · split
              · have hitems : nonHrList ((line :: rest.takeWhile isUlLine).map
                    (fun l => listItemNode (ulItemText l))) = true := by
                  apply nonHrList_of_forall
                  intro n hn
                  rw [List.mem_map] at hn
                  obtain ⟨l, -, rfl⟩ := hn
                  exact listItemNode_ok _
                rw [nonHrList, nonHrNonEmpty]
                simp only [List.map_cons] at hitems
                simp [hitems, ih _]
              · split
                · have hitems : nonHrList ((line :: rest.takeWhile isOlLine).map
                      (fun l => listItemNode (olItemText l))) = true := by
                    apply nonHrList_of_forall
                    intro n hn
                    rw [List.mem_map] at hn
                    obtain ⟨l, -, rfl⟩ := hn
                    exact listItemNode_ok _
                  rw [nonHrList, nonHrNonEmpty]
                  simp only [List.map_cons] at hitems
                  simp [hitems, ih _]
                · rw [nonHrList]
                  simp [paragraphNode_ok, ih rest]

lemma all_space_of_trim_nil {l : List Char} (h : jsTrimList l = []) :
    ∀ c ∈ l, isJsSpace c = true := by
  unfold jsTrimList at h
  have h1 : (l.dropWhile isJsSpace).reverse.dropWhile isJsSpace = [] := by
    have := congrArg List.reverse h
    simpa using this
  rw [List.dropWhile_eq_nil_iff] at h1
  have h2 : ∀ c ∈ l.dropWhile isJsSpace, isJsSpace c = true := by
    intro c hc
    exact h1 c (by simpa using hc)
  intro c hc
  rw [← List.takeWhile_append_dropWhile (p := isJsSpace) (l := l)] at hc
  rcases List.mem_append.mp hc with h3 | h3
  · exact List.mem_takeWhile_imp h3
  · exact h2 c h3

lemma trim_nil_of_all_space {l : List Char} (h : ∀ c ∈ l, isJsSpace c = true) :
    jsTrimList l = [] := by
  unfold jsTrimList
  have h1 : l.dropWhile isJsSpace = [] := List.dropWhile_eq_nil_iff.mpr h
  rw [h1]
  rfl

lemma splitOnCharAux_mem_subset (c : Char) :
    ∀ (l acc part : List Char), part ∈ splitOnCharAux c acc l →
      ∀ x ∈ part, x ∈ acc ∨ x ∈ l := by
  intro l
  induction l with
  | nil =>
    intro acc part hp x hx
    simp [splitOnCharAux] at hp
    subst hp
    left
    simpa using hx
  | cons y ys ih =>
    intro acc part hp x hx
    rw [splitOnCharAux] at hp
    split at hp
    · rcases List.mem_cons.mp hp with rfl | hp2
      · left
        simpa using hx
      · rcases ih [] part hp2 x hx with h | h
        · simp at h
        · right
          simp [h]
    · rcases ih (y :: acc) part hp x hx with h | h
      · rcases List.mem_cons.mp h with rfl | h2
        · right
          simp
        · left
          exact h2
      · right
        simp [h]

lemma mdBlocks_blank : ∀ (fuel : Nat) (lines : List String),
    (∀ l ∈ lines, jsTrim l = "") → mdBlocks fuel lines = [] := by
  intro fuel lines
  induction lines generalizing fuel with
  | nil => intro _; cases fuel <;> rfl
  | cons line rest ih =>
    intro h
    cases fuel with
    | zero => rfl
    | succ fuel =>
      rw [mdBlocks, if_pos (h line (by simp))]
      exact ih fuel (fun l hl => h l (by simp [hl]))

/-- C2 counterexample: compiling `"---"` produces a document whose only
block is a horizontal rule with zero children, so "every block node has at
least one child node" fails as stated. -/
theorem C2_counterexample :
    markdownToRichText "---" =
      RTNode.elem "document" [] [RTNode.elem "hr" [] []] ∧
    allNodesNonEmpty (markdownToRichText "---") = false :=
  ⟨rfl, rfl⟩

/-- C2 (amended): for every input string the compiled document and every
non-text node in it except horizontal rules (which the compiler emits with
empty content) have at least one child; the document itself always has at
least one block; and an empty or whitespace-only input yields exactly one
paragraph block containing exactly one empty text node. -/
theorem C2_richtext_nonempty (s : String) :
    nonHrNonEmpty (markdownToRichText s) = true ∧
    (∃ blocks, markdownToRichText s = RTNode.elem "document" [] blocks ∧
      blocks ≠ []) ∧
    (jsTrim s = "" →
      markdownToRichText s =
        RTNode.elem "document" []
          [RTNode.elem "paragraph" [] [RTNode.text "" []]]) := by
  have hok := mdBlocks_ok
    ((splitOnChar '\n' s.data).map (fun part => (⟨part⟩ : String))).length
    ((splitOnChar '\n' s.data).map (fun part => (⟨part⟩ : String)))
  refine ⟨?_, ?_, ?_⟩
  · unfold markdownToRichText
    dsimp only
    revert hok
    generalize mdBlocks _ _ = content
    intro hok
    split
    · rfl
    · rename_i hne
      rw [nonHrNonEmpty]
      simp only [Bool.not_eq_true] at hne
      simp [hne, hok]
  · unfold markdownToRichText
    dsimp only
    revert hok
    generalize mdBlocks _ _ = content
    intro hok
    split
    · exact ⟨_, rfl, by simp⟩
    · rename_i hne
      refine ⟨_, rfl, ?_⟩
      intro hnil
      rw [hnil] at hne
      exact hne rfl
  · intro hblank
    have hall : ∀ c ∈ s.data, isJsSpace c = true := by
      apply all_space_of_trim_nil
      have : (jsTrim s).data = ("" : String).data := congrArg String.data hblank
      simpa [jsTrim] using this
    have hlines : ∀ l ∈ (splitOnChar '\n' s.data).map
        (fun part => (⟨part⟩ : String)), jsTrim l = "" := by
      intro l hl
      rw [List.mem_map] at hl
      obtain ⟨part, hpart, rfl⟩ := hl
      have hsub : ∀ x ∈ part, x ∈ s.data := by
        intro x hx
        rcases splitOnCharAux_mem_subset '\n' s.data [] part hpart x hx with h | h
        · simp at h
        · exact h
      show (⟨jsTrimList part⟩ : String) = ""
      have : jsTrimList part = [] :=
        trim_nil_of_all_space (fun c hc => hall c (hsub c hc))
      rw [this]
    unfold markdownToRichText
    dsimp only
    rw [mdBlocks_blank _ _ hlines]
    rfl

/-- C2 witness: the amended theorem applied at a whitespace-only input, the
trim hypothesis discharged by computation. -/
theorem C2_witness :
    markdownToRichText "  " =
      RTNode.elem "document" []
        [RTNode.elem "paragraph" [] [RTNode.text "" []]] :=
  (C2_richtext_nonempty "  ").2.2 rfl

lemma importAux_cons_ok {cfg : ImportConfigM} {ctF : Option (List ContentfulField)}
    {store : Store} {k : Nat} {r : ContentRow} {rs : List ContentRow}
    {s2 : Store} {eid : String}
    (hr : processRow cfg ctF store r = Except.ok (s2, eid)) :
    importAux cfg ctF store k (r :: rs) =
      ((importAux cfg ctF s2 (k + 1) rs).1,
       { row := k + 2, entryId := eid, contentType := cfg.contentTypeId,
         action := "created",
         status := if cfg.publishImmediately then "published" else "draft" } ::
         (importAux cfg ctF s2 (k + 1) rs).2.1,
       (importAux cfg ctF s2 (k + 1) rs).2.2) := by
  rw [importAux, hr]

lemma importAux_cons_error {cfg : ImportConfigM} {ctF : Option (List ContentfulField)}
    {store : Store} {k : Nat} {r : ContentRow} {rs : List ContentRow} {m : String}
    (hr : processRow cfg ctF store r = Except.error m) :
    importAux cfg ctF store k (r :: rs) =
      ({ row := k + 2, message := m } :: (importAux cfg ctF store (k + 1) rs).1,
       (importAux cfg ctF store (k + 1) rs).2.1,
       (importAux cfg ctF store (k + 1) rs).2.2) := by
  rw [importAux, hr]

lemma importAux_row_lb : ∀ (rows : List ContentRow) (cfg : ImportConfigM)
    (ctF : Option (List ContentfulField)) (store : Store) (k : Nat),
    (∀ e ∈ (importAux cfg ctF store k rows).1, k + 2 ≤ e.row) ∧
    (∀ en ∈ (importAux cfg ctF store k rows).2.1, k + 2 ≤ en.row) := by
  intro rows
  induction rows with
  | nil =>
    intro cfg ctF store k
    constructor <;> intro x hx <;> simp [importAux] at hx
  | cons r rs ih =>
    intro cfg ctF store k
    cases hr : processRow cfg ctF store r with
    | ok p =>
      obtain ⟨s2, eid⟩ := p
      rw [importAux_cons_ok hr]
      have ihk := ih cfg ctF s2 (k + 1)
      constructor
      · intro e he
        have := ihk.1 e he
        omega
      · intro en hen
        rcases List.mem_cons.mp hen with rfl | hen2
        · simp
        · have := ihk.2 en hen2
          omega
    | error m =>
      rw [importAux_cons_error hr]
      have ihk := ih cfg ctF store (k + 1)
      constructor
      · intro e he
        rcases List.mem_cons.mp he with rfl | he2
        · simp
        · have := ihk.1 e he2
          omega
      · intro en hen
        have := ihk.2 en hen
        omega

lemma filter_row_nil_err (l : List ImportError) (t : Nat)
    (h : ∀ e ∈ l, e.row ≠ t) : l.filter (fun e => e.row == t) = [] := by
  induction l with
  | nil => rfl
  | cons x xs ih =>
    rw [List.filter_cons_of_neg (by simpa using h x (by simp))]
    exact ih (fun e he => h e (by simp [he]))

lemma filter_row_nil_ent (l : List ImportedEntry) (t : Nat)
    (h : ∀ e ∈ l, e.row ≠ t) : l.filter (fun e => e.row == t) = [] := by
  induction l with
  | nil => rfl
  | cons x xs ih =>
    rw [List.filter_cons_of_neg (by simpa using h x (by simp))]
    exact ih (fun e he => h e (by simp [he]))

lemma importAux_isolate : ∀ (rows : List ContentRow) (cfg : ImportConfigM)
    (ctF : Option (List ContentfulField)) (store : Store) (k i : Nat)
    (hi : i < rows.length),
    (∀ s2 eid,
      processRow cfg ctF (runRowsStore cfg ctF store (rows.take i))
          (rows.get ⟨i, hi⟩) = Except.ok (s2, eid) →
      (importAux cfg ctF store k rows).1.filter
          (fun e => e.row == k + i + 2) = [] ∧
      (importAux cfg ctF store k rows).2.1.filter
          (fun en => en.row == k + i + 2) =
        [{ row := k + i + 2, entryId := eid, contentType := cfg.contentTypeId,
           action := "created",
           status := if cfg.publishImmediately then "published" else "draft" }]) ∧
    (∀ m,
      processRow cfg ctF (runRowsStore cfg ctF store (rows.take i))
          (rows.get ⟨i, hi⟩) = Except.error m →
      (importAux cfg ctF store k rows).1.filter
          (fun e => e.row == k + i + 2) =
        [{ row := k + i + 2, message := m }] ∧
      (importAux cfg ctF store k rows).2.1.filter
          (fun en => en.row == k + i + 2) = []) := by
  intro rows
  induction rows with
  | nil =>
    intro cfg ctF store k i hi
    simp at hi
  | cons r rs ih =>
    intro cfg ctF store k i hi
    cases i with
    | zero =>
      constructor
      · intro s2 eid hok
        have hok2 : processRow cfg ctF store r = Except.ok (s2, eid) := hok
        rw [importAux_cons_ok hok2]
        have hlb := importAux_row_lb rs cfg ctF s2 (k + 1)
        constructor
        · exact filter_row_nil_err _ _ (fun e he => by
            have := hlb.1 e he
            omega)
        · rw [List.filter_cons_of_pos (by simp)]
          rw [filter_row_nil_ent _ _ (fun en hen => by
            have := hlb.2 en hen
            omega)]
      · intro m herr
        have herr2 : processRow cfg ctF store r = Except.error m := herr
        rw [importAux_cons_error herr2]
        have hlb := importAux_row_lb rs cfg ctF store (k + 1)
        constructor
        · rw [List.filter_cons_of_pos (by simp)]
          rw [filter_row_nil_err _ _ (fun e he => by
            have := hlb.1 e he
            omega)]
        · exact filter_row_nil_ent _ _ (fun en hen => by
            have := hlb.2 en hen
            omega)
    | succ j =>
      have hj : j < rs.length := Nat.lt_of_succ_lt_succ hi
      have harith : k + (j + 1) + 2 = k + 1 + j + 2 := by omega
      cases hr : processRow cfg ctF store r with
      | ok p =>
        obtain ⟨s2, eid2⟩ := p
        have hpre : runRowsStore cfg ctF store ((r :: rs).take (j + 1)) =
            runRowsStore cfg ctF s2 (rs.take j) := by
          rw [List.take_succ_cons, runRowsStore, hr]
        rw [importAux_cons_ok hr]
        have ihj := ih cfg ctF s2 (k + 1) j hj
        constructor
        · intro s2' eid' hok
          rw [hpre] at hok
          obtain ⟨h1, h2⟩ := ihj.1 s2' eid' hok
          constructor
          · rw [harith]
            exact h1
          · rw [harith, List.filter_cons_of_neg (by simp; omega)]
            exact h2
        · intro m herr
          rw [hpre] at herr
          obtain ⟨h1, h2⟩ := ihj.2 m herr
          constructor
          · rw [harith]
            exact h1
          · rw [harith, List.filter_cons_of_neg (by simp; omega)]
            exact h2
      | error m2 =>
        have hpre : runRowsStore cfg ctF store ((r :: rs).take (j + 1)) =
            runRowsStore cfg ctF store (rs.take j) := by
          rw [List.take_succ_cons, runRowsStore, hr]
        rw [importAux_cons_error hr]
        have ihj := ih cfg ctF store (k + 1) j hj
        constructor
        · intro s2' eid' hok
          rw [hpre] at hok
          obtain ⟨h1, h2⟩ := ihj.1 s2' eid' hok
          constructor
          · rw [harith, List.filter_cons_of_neg (by simp; omega)]
            exact h1
          · rw [harith]
            exact h2
        · intro m herr
          rw [hpre] at herr
          obtain ⟨h1, h2⟩ := ihj.2 m herr
          constructor
          · rw [harith, List.filter_cons_of_neg (by simp; omega)]
            exact h1
          · rw [harith]
            exact h2

/-- C9: per-row failures during import are isolated.  For the row at index
`i`, let `pre` be the environment state after the preceding rows were
processed: if the row's own transform-and-resolve (`processRow`) succeeds
there, the import result contains exactly one created entry for that row
number and no error; if it throws, the result contains exactly one error
carrying the thrown message for that row number and no entry — in either
case every row is processed (`totalProcessed = rows.length`), so one row's
failure never aborts its siblings. -/
theorem C9_row_isolation (rows : List ContentRow) (config : ImportConfigM)
    (store : Store) (i : Nat) (hi : i < rows.length) :
    (importContent rows config store).totalProcessed = rows.length ∧
    (∀ s2 eid,
      processRow config (lookupContentTypeFields store config.contentTypeId)
          (runRowsStore config (lookupContentTypeFields store config.contentTypeId)
            store (rows.take i)) (rows.get ⟨i, hi⟩) = Except.ok (s2, eid) →
      (importContent rows config store).errors.filter
          (fun e => e.row == i + 2) = [] ∧
      (importContent rows config store).entries.filter
          (fun en => en.row == i + 2) =
        [{ row := i + 2, entryId := eid, contentType := config.contentTypeId,
           action := "created",
           status := if config.publishImmediately then "published" else "draft" }]) ∧
    (∀ m,
      processRow config (lookupContentTypeFields store config.contentTypeId)
          (runRowsStore config (lookupContentTypeFields store config.contentTypeId)
            store (rows.take i)) (rows.get ⟨i, hi⟩) = Except.error m →
      (importContent rows config store).errors.filter
          (fun e => e.row == i + 2) = [{ row := i + 2, message := m }] ∧
      (importContent rows config store).entries.filter
          (fun en => en.row == i + 2) = []) := by
  have h := importAux_isolate rows config
    (lookupContentTypeFields store config.contentTypeId) store 0 i hi
  simp only [Nat.zero_add] at h
  exact ⟨rfl, h.1, h.2⟩

def titleF : ContentfulField :=
  { id := "title", name := "Title", type := "Symbol", required := true,
    localized := false, linkType := none, itemsType := none,
    itemsLinkType := none }

/-- A store holding one entry (`a1`, with `slug = "alice"`) and the `post`
content type. -/
def demoStore : Store :=
  { entries := [{ id := "a1", fields := [("slug", "alice")] }],
    contentTypes := [("post", [titleF, entryRefField])] }

def demoConfig : ImportConfigM :=
  { contentTypeId := "post", locale := "", publishImmediately := false,
    fieldMappings := [{ sourceField := "Title", targetField := "title", confidence := 1 },
                      { sourceField := "Author", targetField := "author", confidence := 1 }],
    defaultValues := [] }

/-- Three rows: rows 1 and 3 are importable, row 2 carries a lookup that
matches no stored entry. -/
def demoRows : List ContentRow :=
  [[("Title", JsValue.vstr "Hello"), ("Author", JsValue.vstr "lookup:slug:alice")],
   [("Title", JsValue.vstr "Second"), ("Author", JsValue.vstr "lookup:slug:bob")],
   [("Title", JsValue.vstr "Third")]]

/-- C9 witness: the isolation theorem applied to the 3-row batch — row 2
(the failing lookup) yields exactly its own error, rows 1 and 3 still
yield created entries. -/
theorem C9_witness :
    (importContent demoRows demoConfig demoStore).errors.filter
        (fun e => e.row == 3) =
      [{ row := 3, message := "Lookup failed: no entry found where slug = \"bob\"" }] ∧
    (importContent demoRows demoConfig demoStore).entries.filter
        (fun en => en.row == 2) =
      [{ row := 2, entryId := "entry1", contentType := "post",
         action := "created", status := "draft" }] ∧
    (importContent demoRows demoConfig demoStore).entries.filter
        (fun en => en.row == 4) =
      [{ row := 4, entryId := "entry2", contentType := "post",
         action := "created", status := "draft" }] := by
  refine ⟨?_, ?_, ?_⟩
  · exact ((C9_row_isolation demoRows demoConfig demoStore 1 (by decide)).2.2
      "Lookup failed: no entry found where slug = \"bob\"" rfl).1
  · exact ((C9_row_isolation demoRows demoConfig demoStore 0 (by decide)).2.1
      _ "entry1" rfl).2
  · exact ((C9_row_isolation demoRows demoConfig demoStore 2 (by decide)).2.1
      _ "entry2" rfl).2
